import Mathlib

/-!
# pegconvert: a shallow embedding of `src/pegconvert.cpp`

The converter reads a Wavefront `.obj` text buffer in two passes (`parseobj` with
`cnt = true`, then with `cnt = false`), deduplicates face-vertex references with
`mapindex`, and emits a triangulated shape with `genobj2acorn`.

Modelling conventions.

* The `char` buffer is a `List Char`; the cursor `obj->ptr` is the list of characters
  from the cursor to the end of the buffer.  Reading the cursor at the end of the list
  gives the terminating NUL, and a NUL stored inside the buffer stops every scanning
  loop exactly as in the C code.
* `int` values are unbounded (`Nat` for counters and output indices, `Int` for the
  numbers read by `atoi`); wrap-around of 32-bit integers is not modelled.
* `float`/`double` values are elements of a linearly ordered field `α`: arithmetic is
  exact, and rounding, infinities and NaN are outside the model.  The one division of
  the program, `height/(maxy-miny)` at line 283, is by zero on a mesh that is flat in y:
  `deriveScale` tells when its quotient is a number, and the theorems about the converted
  coordinates assume it where the scale matters.  The C library functions `atof`, `cos`
  and `sin` are parameters of the definitions that call them.
* Loops that the C code may run without bound take a `fuel` argument and return `none`
  when the fuel is used up.
* Reads outside an array return `none`.
-/

namespace Pegconvert

/-! ## The source buffer (lines 94-136) -/

/-- The NUL character that terminates the buffer. -/
def NUL : Char := Char.ofNat 0

/-- The character under the cursor, `*obj->ptr`. -/
def cur (p : List Char) : Char := p.headD NUL

/-- The loop `while (*obj->ptr && *obj->ptr==' ') obj->ptr++;`. -/
def skipSpaces : List Char → List Char
  | [] => []
  | c :: cs => if c != NUL && c == ' ' then skipSpaces cs else c :: cs

/-- The C function `match`: skip spaces, then compare the text at the cursor with `str`;
on success move the cursor past it.  Returns the flag and the new cursor. -/
def match_ (p : List Char) (str : List Char) : Bool × List Char :=
  let q := skipSpaces p
  if str.isPrefixOf q then (true, q.drop str.length) else (false, q)

/-- The loop `while (*obj->ptr && *obj->ptr!='\n') obj->ptr++;` of `nextline`. -/
def skipToEol : List Char → List Char
  | [] => []
  | c :: cs => if c != NUL && c != '\n' then skipToEol cs else c :: cs

/-- The C function `nextline`: move the cursor to the start of the next line. -/
def nextline (p : List Char) : List Char :=
  let q := skipToEol p
  if cur q != NUL then q.tail else q

/-- The test `*obj->ptr>='0' && *obj->ptr<='9'`. -/
def isDigitC (c : Char) : Bool := decide ('0' ≤ c) && decide (c ≤ '9')

/-- The characters that the cursor loop of `getfloat` steps over (line 121). -/
def isFloatC (c : Char) : Bool :=
  isDigitC c || c == '.' || c == '-' || c == 'e' || c == 'E'

/-- The cursor loop of `getfloat` (lines 121-122). -/
def skipFloat : List Char → List Char
  | [] => []
  | c :: cs => if c != NUL && isFloatC c then skipFloat cs else c :: cs

/-- The C function `getfloat`; `atof` is the C library function. -/
def getfloat {α : Type} (atof : List Char → α) (p : List Char) : α × List Char :=
  let q := skipSpaces p
  (atof q, skipFloat q)

/-- The cursor loop of `getint` (lines 133-134). -/
def skipDigits : List Char → List Char
  | [] => []
  | c :: cs => if c != NUL && isDigitC c then skipDigits cs else c :: cs

/-- White space in the sense of the C library's `isspace`. -/
def isSpaceC (c : Char) : Bool :=
  c == ' ' || c == '\t' || c == '\n' || c == Char.ofNat 11 || c == Char.ofNat 12 || c == '\r'

/-- The digits accumulated by `atoi`, most significant first. -/
def atoiDigits : List Char → Nat → Nat
  | [], acc => acc
  | c :: cs, acc => if isDigitC c then atoiDigits cs (10 * acc + (c.toNat - 48)) else acc

/-- The sign and digits part of `atoi`. -/
def atoiSigned : List Char → Int
  | '-' :: cs => - (atoiDigits cs 0 : Int)
  | '+' :: cs => (atoiDigits cs 0 : Int)
  | cs => (atoiDigits cs 0 : Int)

/-- The C library function `atoi`: skip white space, read an optional sign and the
decimal digits that follow (no overflow in the model). -/
def atoi : List Char → Int
  | [] => 0
  | c :: cs => if isSpaceC c then atoi cs else atoiSigned (c :: cs)

/-- The C function `getint`. -/
def getint (p : List Char) : Int × List Char :=
  let q := skipSpaces p
  (atoi q, skipDigits q)

/-! ## Face-vertex references and the deduplication table (lines 138-144, 294-314) -/

/-- The C struct `objfaceidxstr`: one vertex of a face's polygon. -/
structure objfaceidxstr where
  seggroup : Int
  vp : Int
  vt : Int
  vn : Int
deriving DecidableEq, Repr

/-- The comparison of the `for` loop of `mapindex` (lines 302-305). -/
def sameIndex (e o : objfaceidxstr) : Bool :=
  e.seggroup == o.seggroup && e.vn == o.vn && e.vt == o.vt && e.vp == o.vp

/-- The search loop of `mapindex` (lines 301-307), over the entries from position `i` on;
`none` when the loop ends without a `return`. -/
def mapsearch (o : objfaceidxstr) : List objfaceidxstr → Nat → Option Nat
  | [], _ => none
  | e :: es, i => if sameIndex e o then some i else mapsearch o es (i + 1)

/-- The C function `mapindex`.  The table `mapidx[0 .. nmaps)` is the list `mapidx`, so
that `nmaps` is its length.  Returns the opengl index and the new table. -/
def mapindex (mapidx : List objfaceidxstr) (o : objfaceidxstr) :
    Nat × List objfaceidxstr :=
  match mapsearch o mapidx 0 with
  | some i => (i, mapidx)
  | none => (mapidx.length, mapidx ++ [o])

/-- The number of registered opengl vertices, the C global `nmaps`. -/
def nmaps (mapidx : List objfaceidxstr) : Nat := mapidx.length

/-- A sequence of `mapindex` calls, one per element of `rs`, from the table `mapidx`:
the returned indices in call order, and the final table. -/
def mapindexAll : List objfaceidxstr → List objfaceidxstr → List Nat × List objfaceidxstr
  | [], mapidx => ([], mapidx)
  | r :: rs, mapidx =>
    let (i, m1) := mapindex mapidx r
    let (is, m2) := mapindexAll rs m1
    (i :: is, m2)

/-! ## Global state (lines 38-61, 146-166) -/

/-- The C struct `Xyz`. -/
structure Xyz (α : Type) where
  x : α
  y : α
  z : α
deriving DecidableEq, Repr

/-- The global variables of the program, with the two fields `contents` and `ptr` of the
`FileInfo` of the source file, and the local `faceidxpos` of `parseobj`.  A buffer that
the C code fills through a working pointer (`*objvertposp++ = x`) is the list of the
entries written so far. -/
structure Globals (α : Type) where
  yrotation : α
  xorigin : α
  yorigin : α
  zorigin : α
  height : α
  xdelta : α
  ydelta : α
  zdelta : α
  scale : α
  uvdim : Int
  contents : List Char
  ptr : List Char
  objnvertpos : Nat
  objnvertnorm : Nat
  objnverttex : Nat
  objnfaces : Nat
  objnfaceidxs : Nat
  objvertpos : List α
  objvertnorm : List α
  objverttex : List α
  objfaceidx : List objfaceidxstr
  objfacepos : List Nat
  objfacelen : List Nat
  faceidxpos : Nat
  seggroup : Int
  maxx : α
  minx : α
  maxy : α
  miny : α
  maxz : α
  minz : α

/-- The state at program start (the initialisers of the globals) once `loadfile` has
stored the file in the buffer. -/
def Globals.init {α : Type} [LinearOrderedField α] (buf : List Char) : Globals α :=
  { yrotation := 0, xorigin := -1, yorigin := -1, zorigin := -1, height := -1,
    xdelta := 0, ydelta := 0, zdelta := 0, scale := 1, uvdim := 2,
    contents := buf, ptr := buf,
    objnvertpos := 0, objnvertnorm := 0, objnverttex := 0, objnfaces := 0,
    objnfaceidxs := 0,
    objvertpos := [], objvertnorm := [], objverttex := [], objfaceidx := [],
    objfacepos := [], objfacelen := [], faceidxpos := 0, seggroup := 0,
    maxx := 0, minx := 0, maxy := 0, miny := 0, maxz := 0, minz := 0 }

/-! ## The parser (lines 168-292) -/

/-- The locals `vpi`, `vti`, `vni`, `idxcnt` of the face branch of `parseobj`. -/
structure FaceVars where
  vpi : Int
  vti : Int
  vni : Int
  idxcnt : Nat
deriving DecidableEq, Repr

/-- Lines 232-244: read one reference `p[/[t]][/n]` and the spaces after it. -/
def faceRef (fv : FaceVars) (p : List Char) : FaceVars × List Char :=
  let g1 := getint p
  let p1 := g1.2
  if cur p1 == '/' then
    let p2 := p1.tail
    let g2 := if cur p2 != '/' then getint p2 else (fv.vti, p2)
    let p3 := g2.2
    if cur p3 == '/' then
      let g3 := getint p3.tail
      ({ vpi := g1.1, vti := g2.1, vni := g3.1, idxcnt := fv.idxcnt + 1 }, skipSpaces g3.2)
    else
      ({ vpi := g1.1, vti := g2.1, vni := fv.vni, idxcnt := fv.idxcnt + 1 }, skipSpaces p3)
  else
    ({ vpi := g1.1, vti := fv.vti, vni := fv.vni, idxcnt := fv.idxcnt + 1 }, skipSpaces p1)

/-- Lines 245-253: count the reference, or store it. -/
def faceStore {α : Type} (cnt : Bool) (fv : FaceVars) (st : Globals α) : Globals α :=
  if cnt then { st with objnfaceidxs := st.objnfaceidxs + 1 }
  else
    { st with
      objfaceidx := st.objfaceidx ++
        [{ seggroup := st.seggroup, vp := fv.vpi, vt := fv.vti, vn := fv.vni }],
      faceidxpos := st.faceidxpos + 1 }

/-- The `do ... while` loop of the face branch (lines 231-254). -/
def faceLoop {α : Type} : Nat → Bool → FaceVars → Globals α → Option (FaceVars × Globals α)
  | 0, _, _, _ => none
  | fuel + 1, cnt, fv, st =>
    let r := faceRef fv st.ptr
    let st1 := faceStore cnt r.1 { st with ptr := r.2 }
    if cur r.2 != NUL && cur r.2 != '\r' && cur r.2 != '\n' then
      faceLoop fuel cnt r.1 st1
    else some (r.1, st1)

/-- Lines 216-221: capture minimums and maximums. -/
def capture {α : Type} [LinearOrderedField α] (x y z : α) (st : Globals α) : Globals α :=
  { st with
    maxx := if x > st.maxx then x else st.maxx,
    minx := if x < st.minx then x else st.minx,
    maxy := if y > st.maxy then y else st.maxy,
    miny := if y < st.miny then y else st.miny,
    maxz := if z > st.maxz then z else st.maxz,
    minz := if z < st.minz then z else st.minz }

/-- Lines 270-272: `obj->ptr[20] = 0` cuts the buffer twenty characters after the
cursor (when fewer than twenty characters remain the C code writes outside the buffer
and the model leaves the buffer as it is). -/
def failMark {α : Type} (st : Globals α) : Globals α :=
  { st with
    ptr := st.ptr.set 20 NUL,
    contents := st.contents.set (st.contents.length - st.ptr.length + 20) NUL }

/-- One iteration of the line loop of `parseobj` (lines 183-273), entered with a
character other than NUL under the cursor.  The flag is `false` when the iteration
executes `return 0`. -/
def parseLine {α : Type} [LinearOrderedField α] (atof : List Char → α) (fuel : Nat)
    (cnt : Bool) (st : Globals α) : Option (Bool × Globals α) :=
  let p := skipSpaces st.ptr
  let m := match_ p ['#']
  if m.1 then some (true, { st with ptr := nextline m.2 })
  else
  let m := match_ m.2 ['v', 'n']
  if m.1 then
    if cnt then
      some (true, { st with objnvertnorm := st.objnvertnorm + 1, ptr := nextline m.2 })
    else
      let x := getfloat atof m.2
      let y := getfloat atof x.2
      let z := getfloat atof y.2
      some (true, { st with objvertnorm := st.objvertnorm ++ [x.1, y.1, z.1],
                            ptr := nextline z.2 })
  else
  let m := match_ m.2 ['v', 't']
  if m.1 then
    if cnt then
      some (true, { st with objnverttex := st.objnverttex + 1, ptr := nextline m.2 })
    else
      let x := getfloat atof m.2
      let y := getfloat atof x.2
      let z := getfloat atof y.2
      some (true, { st with objverttex := st.objverttex ++ [x.1, y.1, z.1],
                            ptr := nextline z.2 })
  else
  let m := match_ m.2 ['v', 'p']
  if m.1 then some (true, { st with ptr := nextline m.2 })
  else
  let m := match_ m.2 ['v']
  if m.1 then
    if cnt then
      some (true, { st with objnvertpos := st.objnvertpos + 1, ptr := nextline m.2 })
    else
      let x := getfloat atof m.2
      let y := getfloat atof x.2
      let z := getfloat atof y.2
      some (true, { capture x.1 y.1 z.1 st with
                      objvertpos := st.objvertpos ++ [x.1, y.1, z.1],
                      ptr := nextline z.2 })
  else
  let m := match_ m.2 ['f']
  if m.1 then
    let st1 : Globals α :=
      if cnt then { st with objnfaces := st.objnfaces + 1 }
      else { st with objfacepos := st.objfacepos ++ [st.faceidxpos] }
    match faceLoop fuel cnt { vpi := 0, vti := 0, vni := 0, idxcnt := 0 }
        { st1 with ptr := m.2 } with
    | none => none
    | some (fv, st2) =>
      let st3 : Globals α :=
        if cnt then st2 else { st2 with objfacelen := st2.objfacelen ++ [fv.idxcnt] }
      some (true, { st3 with ptr := nextline st3.ptr })
  else
  let m := match_ m.2 ['s']
  if m.1 then
    let g := getint m.2
    some (true, { st with seggroup := g.1, ptr := nextline g.2 })
  else
  let m := match_ m.2 ['g']
  if m.1 then some (true, { st with ptr := nextline m.2 })
  else
  let m := match_ m.2 ['m', 't', 'l', 'l', 'i', 'b']
  if m.1 then some (true, { st with ptr := nextline m.2 })
  else
  let m := match_ m.2 ['u', 's', 'e', 'm', 't', 'l']
  if m.1 then some (true, { st with ptr := nextline m.2 })
  else
  let m := match_ m.2 ['\r']
  if m.1 then some (true, { st with ptr := nextline m.2 })
  else
  let m := match_ m.2 ['\n']
  if m.1 then some (true, { st with ptr := nextline m.2 })
  else if cur m.2 != NUL then some (false, failMark { st with ptr := m.2 })
  else some (true, { st with ptr := m.2 })

/-- The loop `while (*obj->ptr) { ... }` of `parseobj` (lines 182-274).  The flag is
`false` when the loop is left by `return 0`. -/
def parseLoop {α : Type} [LinearOrderedField α] (atof : List Char → α) :
    Nat → Bool → Globals α → Option (Bool × Globals α)
  | 0, _, _ => none
  | fuel + 1, cnt, st =>
    if cur st.ptr != NUL then
      match parseLine atof fuel cnt st with
      | none => none
      | some (false, st1) => some (false, st1)
      | some (true, st1) => parseLoop atof fuel cnt st1
    else some (true, st)

/-- Lines 171-178: the fill pass allocates the buffers and points the working pointers
at their starts. -/
def allocate {α : Type} (cnt : Bool) (st : Globals α) : Globals α :=
  if cnt then st
  else { st with objvertpos := [], objvertnorm := [], objverttex := [],
                 objfacepos := [], objfacelen := [], objfaceidx := [] }

/-- Line 283 where its quotient is a number: the scale at the end of the fill pass.  With
a target height and `maxy = miny` the C code divides by zero; the quotient is then an
infinity, which the field does not have, and the scale is `none`. -/
def deriveScale {α : Type} [LinearOrderedField α] (st : Globals α) : Option α :=
  if st.height > 0 then
    if st.maxy - st.miny = 0 then none else some (st.height / (st.maxy - st.miny))
  else some st.scale

/-- Lines 282-289: the scale and the deltas derived at the end of the fill pass.  The
quotient is the one of the field, which agrees with the one of the C code where
`deriveScale` gives a number. -/
def derive {α : Type} [LinearOrderedField α] (st : Globals α) : Globals α :=
  { st with
    scale := if st.height > 0 then st.height / (st.maxy - st.miny) else st.scale,
    xdelta := if st.xorigin ≥ 0 then -(st.xorigin * (st.maxx - st.minx) + st.minx)
              else st.xdelta,
    ydelta := if st.yorigin ≥ 0 then -(st.yorigin * (st.maxy - st.miny) + st.miny)
              else st.ydelta,
    zdelta := if st.zorigin ≥ 0 then -(st.zorigin * (st.maxz - st.minz) + st.minz)
              else st.zdelta }

/-- The C function `parseobj`.  The result is `none` when the fuel runs out, and
otherwise the returned value (`true` for 1, `false` for 0) with the new state. -/
def parseobj {α : Type} [LinearOrderedField α] (atof : List Char → α) (fuel : Nat)
    (cnt : Bool) (st : Globals α) : Option (Bool × Globals α) :=
  match parseLoop atof fuel cnt { allocate cnt st with faceidxpos := 0 } with
  | none => none
  | some (false, st1) => some (false, st1)
  | some (true, st1) =>
    let st2 := { st1 with ptr := st1.contents }
    if cnt then some (true, st2) else some (true, derive st2)

/-! ## Coordinate conversion (lines 316-334) -/

/-- The C function `convertPosition`; `cos` and `sin` are the C library functions. -/
def convertPosition {α : Type} [LinearOrderedField α] (cos sin : α → α) (g : Globals α)
    (oldxyz : Xyz α) : Xyz α :=
  { x := (oldxyz.x + g.xdelta) * g.scale * cos g.yrotation
          - (oldxyz.z + g.zdelta) * g.scale * sin g.yrotation,
    y := (oldxyz.y + g.ydelta) * g.scale,
    z := (oldxyz.z + g.zdelta) * g.scale * cos g.yrotation
          + (oldxyz.x + g.xdelta) * g.scale * sin g.yrotation }

/-- The C function `convertNormal`. -/
def convertNormal {α : Type} [LinearOrderedField α] (cos sin : α → α) (g : Globals α)
    (oldxyz : Xyz α) : Xyz α :=
  { x := oldxyz.x * cos g.yrotation - oldxyz.z * sin g.yrotation,
    y := oldxyz.y,
    z := oldxyz.z * cos g.yrotation + oldxyz.x * sin g.yrotation }

/-! ## The emitter (lines 336-416) -/

/-- The inner `for` loop of the index block (lines 358-369) with `n` iterations to go;
`k` is the offset of the moving pointer `faceidxp` in `objfaceidx`.  Returns the
triples written and the new table. -/
def triLoop (objfaceidx : List objfaceidxstr) (v0 : Nat) :
    Nat → Nat → List objfaceidxstr → Option (List (Nat × Nat × Nat) × List objfaceidxstr)
  | 0, _, mapidx => some ([], mapidx)
  | n + 1, k, mapidx =>
    match objfaceidx[k + 1]?, objfaceidx[k + 2]? with
    | some r1, some r2 =>
      let m1 := mapindex mapidx r1
      let m2 := mapindex m1.2 r2
      match triLoop objfaceidx v0 n (k + 1) m2.2 with
      | some rest => some ((v0, m1.1, m2.1) :: rest.1, rest.2)
      | none => none
    | _, _ => none

/-- The body of the outer `for` loop of the index block (lines 355-369) for the face
`faceidx`.  The loop bound `facelen-2` is taken in `Nat`: no iteration when
`facelen < 2`, as in C. -/
def faceTris {α : Type} (g : Globals α) (faceidx : Nat) (mapidx : List objfaceidxstr) :
    Option (List (Nat × Nat × Nat) × List objfaceidxstr) :=
  match g.objfacepos[faceidx]?, g.objfacelen[faceidx]? with
  | some pos, some facelen =>
    match g.objfaceidx[pos]? with
    | some r0 =>
      let m0 := mapindex mapidx r0
      triLoop g.objfaceidx m0.1 (facelen - 2) pos m0.2
    | none => none
  | _, _ => none

/-- The outer `for` loop of the index block (lines 354-370) with `n` faces to go from
face `faceidx` on. -/
def indexLoop {α : Type} (g : Globals α) :
    Nat → Nat → List objfaceidxstr → Option (List (Nat × Nat × Nat) × List objfaceidxstr)
  | 0, _, mapidx => some ([], mapidx)
  | n + 1, faceidx, mapidx =>
    match faceTris g faceidx mapidx with
    | some t =>
      match indexLoop g n (faceidx + 1) t.2 with
      | some rest => some (t.1 ++ rest.1, rest.2)
      | none => none
    | none => none

/-- The three floats `f[0], f[1], f[2]` at `&buf[3*(idx-1)]`. -/
def readXyz {α : Type} (buf : List α) (idx : Int) : Option (Xyz α) :=
  if 0 ≤ 3 * (idx - 1) then
    let k := (3 * (idx - 1)).toNat
    match buf[k]?, buf[k + 1]?, buf[k + 2]? with
    | some a, some b, some c => some { x := a, y := b, z := c }
    | _, _, _ => none
  else none

/-- Apply `f` to every entry of a list, failing when one application fails. -/
def mapAll {β γ : Type} (f : β → Option γ) : List β → Option (List γ)
  | [] => some []
  | b :: bs =>
    match f b, mapAll f bs with
    | some c, some cs => some (c :: cs)
    | _, _ => none

/-- The document written by `genobj2acorn`: the corners of the boundary comment, the
index triples, the two numbers of the summary comment, the positions, and the normal
and uv blocks when they are written. -/
structure Shape (α : Type) where
  newmin : Xyz α
  newmax : Xyz α
  indices : List (Nat × Nat × Nat)
  nvertices : Nat
  ntris : Nat
  positions : List (Xyz α)
  normals : Option (List (Xyz α))
  uvs : Option (List (List α))

/-- The C function `genobj2acorn`, as the document it writes. -/
def genobj2acorn {α : Type} [LinearOrderedField α] (cos sin : α → α) (g : Globals α) :
    Option (Shape α) :=
  let newmin := convertPosition cos sin g { x := g.minx, y := g.miny, z := g.minz }
  let newmax := convertPosition cos sin g { x := g.maxx, y := g.maxy, z := g.maxz }
  match indexLoop g g.objnfaces 0 [] with
  | none => none
  | some (tris, mapidx) =>
    match mapAll (fun e => (readXyz g.objvertpos e.vp).map (convertPosition cos sin g))
        mapidx with
    | none => none
    | some positions =>
      let normals : Option (Option (List (Xyz α))) :=
        if g.objnvertnorm > 0 then
          (mapAll (fun e => (readXyz g.objvertnorm e.vn).map (convertNormal cos sin g))
            mapidx).map some
        else some none
      let uvs : Option (Option (List (List α))) :=
        if g.objnverttex > 0 then
          (mapAll (fun e => (readXyz g.objverttex e.vt).map
            (fun f => if g.uvdim = 3 then [f.x, f.y, f.z] else [f.x, f.y])) mapidx).map some
        else some none
      match normals, uvs with
      | some ns, some us =>
        some { newmin := newmin, newmax := newmax, indices := tris,
               nvertices := nmaps mapidx, ntris := tris.length,
               positions := positions, normals := ns, uvs := us }
      | _, _ => none

/-! ## The conversion (lines 459-472 of `main`) -/

/-- Lines 459-472 of `main`, from the state left by the option processing: the two parse
passes, the emitter, and `return 0`.  The values returned by `parseobj` are not used.
The result is the exit code and the document written. -/
def convert {α : Type} [LinearOrderedField α] (atof : List Char → α) (cos sin : α → α)
    (fuel : Nat) (st : Globals α) : Option (Int × Shape α) :=
  match parseobj atof fuel true st with
  | none => none
  | some (_, st1) =>
    match parseobj atof fuel false st1 with
    | none => none
    | some (_, st2) =>
      match genobj2acorn cos sin st2 with
      | none => none
      | some doc => some (0, doc)

/-! ## An instance of `atof` -/

/-- Read a run of decimal digits: the value accumulated on `acc`, the number of digits
read added to `n`, and the rest of the text. -/
def readDigits : List Char → Nat → Nat → Nat × Nat × List Char
  | [], acc, n => (acc, n, [])
  | c :: cs, acc, n =>
    if isDigitC c then readDigits cs (10 * acc + (c.toNat - 48)) (n + 1) else (acc, n, c :: cs)

/-- The exponent part of a decimal literal, 0 when the text does not start with `e` or
`E`, an optional sign and a digit. -/
def readExponent : List Char → Int
  | [] => 0
  | c :: r =>
    if c == 'e' || c == 'E' then
      match r with
      | '-' :: r2 => if (readDigits r2 0 0).2.1 = 0 then 0 else -((readDigits r2 0 0).1 : Int)
      | '+' :: r2 => if (readDigits r2 0 0).2.1 = 0 then 0 else ((readDigits r2 0 0).1 : Int)
      | r2 => if (readDigits r2 0 0).2.1 = 0 then 0 else ((readDigits r2 0 0).1 : Int)
    else 0

/-- The mantissa `m` scaled by the power `x` of ten. -/
def scaleTen (m : Nat) (x : Int) : ℚ :=
  if 0 ≤ x then ((m * 10 ^ x.toNat : Nat) : ℚ) else (m : ℚ) / ((10 ^ (-x).toNat : Nat) : ℚ)

/-- The sign, mantissa and exponent of a decimal literal, 0 when the mantissa has no
digit. -/
def atofSigned (neg : Bool) (q : List Char) : ℚ :=
  let ip := readDigits q 0 0
  let m : Nat × Nat × List Char :=
    match ip.2.2 with
    | '.' :: r => readDigits r ip.1 0
    | r => (ip.1, 0, r)
  if ip.2.1 + m.2.1 = 0 then 0
  else if neg then -(scaleTen m.1 (readExponent m.2.2 - m.2.1))
  else scaleTen m.1 (readExponent m.2.2 - m.2.1)

/-- The C library function `atof` on decimal literals, with the exact rational value in
place of the nearest `double`: skip white space, then read an optional sign, digits with
an optional point, and an optional exponent.  (Hexadecimal literals, `inf` and `nan` are
not read.) -/
def atofDec : List Char → ℚ
  | [] => 0
  | c :: cs =>
    if isSpaceC c then atofDec cs
    else if c == '-' then atofSigned true cs
    else if c == '+' then atofSigned false cs
    else atofSigned false (c :: cs)

/-! ## Sample data -/

/-- The state after the two passes over `v` lines and the quad `f 1 2 3 4`, as far as the
index block reads it. -/
def quadMesh : Globals ℚ :=
  { Globals.init [] with
    objnfaces := 1, objnfaceidxs := 4,
    objfaceidx := [⟨0, 1, 0, 0⟩, ⟨0, 2, 0, 0⟩, ⟨0, 3, 0, 0⟩, ⟨0, 4, 0, 0⟩],
    objfacepos := [0], objfacelen := [4] }

/-- The box of the options `-origin:bottom -height:2` around a mesh whose positions
span `[0,4] × [-1,3] × [-2,2]`, before the end of the fill pass derives the scale and
the deltas. -/
def bottomBox : Globals ℚ :=
  { Globals.init [] with
    xorigin := 1 / 2, yorigin := 0, zorigin := 1 / 2, height := 2,
    maxx := 4, minx := 0, maxy := 3, miny := -1, maxz := 2, minz := -2 }

/-- A buffer with three positions and one triangle. -/
def oneTriangle : List Char := "v 0 0 0\nv 1 0 0\nv 0 1 0\nf 1 2 3\n".toList

/-- The state that the counting pass leaves on `oneTriangle`. -/
def countedTriangle : Globals ℚ :=
  { Globals.init oneTriangle with objnvertpos := 3, objnfaces := 1, objnfaceidxs := 3 }

/-- A buffer with one position, all of whose coordinates are positive. -/
def onePosition : List Char := "v 1 2 3\n".toList

/-- A buffer whose only line starts with no command. -/
def unknownLine : List Char := "xyzzy is not a command\n".toList

/-- A buffer whose empty first line is followed by a line that starts with no command. -/
def blankThenUnknown : List Char := "\nxyzzy\n".toList

/-- Two position lines. -/
def twoPositions : List Char := "v 1 2 3\nv 4 5 6\n".toList

/-- The buffer `twoPositions` with an empty line, a lone LF, between its two lines. -/
def twoPositionsBlank : List Char := "v 1 2 3\n\nv 4 5 6\n".toList

/-- A face line whose second reference has no `t` and no `n` component and whose third
reference has no `t` component. -/
def mixedFace : List Char := "f 1/2/3 4 5//6\n".toList

/-- A face line followed by the only `s` line of the buffer. -/
def faceBeforeGroup : List Char := "f 1 2 3\ns 5\n".toList

/-- A face line with a letter in the place of its second reference. -/
def stuckFace : List Char := "f 1 a\n".toList

/-- Three positions that span the box `[0,4] × [0,0] × [-2,2]`, and one triangle. -/
def flatTriangle : List Char := "v 4 0 2\nv 0 0 -2\nv 4 0 -2\nf 1 2 3\n".toList

/-- The initial state on `flatTriangle` after the option `-rotate:90`: a quarter turn,
whose angle is written here by the approximation 355/226 of π/2. -/
def quarterTurn : Globals ℚ :=
  { Globals.init flatTriangle with yrotation := 355 / 226 }

/-- A position line followed by a line that starts with no command. -/
def positionThenUnknown : List Char := "v 1 2 3\nxyzzy\n".toList

/-- The initial state on `flatTriangle`, whose positions all have `y = 0`, after the
options `-origin:bottom -height:2`. -/
def flatBottom : Globals ℚ :=
  { Globals.init flatTriangle with
    xorigin := 1 / 2, yorigin := 0, zorigin := 1 / 2, height := 2 }

/-- A position line whose first coordinate has a `+` in its exponent. -/
def plusExponent : List Char := "v 1e+2 3 4\n".toList

/-- A position line whose first coordinate starts with a `+`. -/
def plusSign : List Char := "v +5 1 2\n".toList

/-- The state that the fill pass leaves on `oneTriangle` after the counting pass. -/
def filledTriangle : Globals ℚ :=
  { countedTriangle with
    objvertpos := [0, 0, 0, 1, 0, 0, 0, 1, 0],
    objfaceidx := [⟨0, 1, 0, 0⟩, ⟨0, 2, 0, 0⟩, ⟨0, 3, 0, 0⟩],
    objfacepos := [0], objfacelen := [3], faceidxpos := 3, maxx := 1, maxy := 1 }

/-- A buffer with two positions and a face of two references. -/
def shortFace : List Char := "v 0 0 0\nv 1 0 0\nf 1 2\n".toList

/-- The state that the counting pass leaves on `shortFace`. -/
def countedShortFace : Globals ℚ :=
  { Globals.init shortFace with objnvertpos := 2, objnfaces := 1, objnfaceidxs := 2 }

/-- The state that the fill pass leaves on `shortFace` after the counting pass. -/
def filledShortFace : Globals ℚ :=
  { countedShortFace with
    objvertpos := [0, 0, 0, 1, 0, 0],
    objfaceidx := [⟨0, 1, 0, 0⟩, ⟨0, 2, 0, 0⟩],
    objfacepos := [0], objfacelen := [2], faceidxpos := 2, maxx := 1 }

/-- A buffer whose only line is a face: its references name positions that the buffer
does not have. -/
def faceWithoutPositions : List Char := "f 1 2 3\n".toList

/-! ## The rejection test of the specification, and the one of the code -/

/-- The rejection test of the code on the text `q` of a line after its leading spaces:
`q` is not at the end of the buffer and begins with none of `#`, `v`, `f`, `s`, `g`,
`mtllib`, `usemtl`, CR and LF. -/
def rejected (q : List Char) : Bool :=
  cur q != NUL && !(['#'].isPrefixOf q) && !(['v'].isPrefixOf q) && !(['f'].isPrefixOf q) &&
    !(['s'].isPrefixOf q) && !(['g'].isPrefixOf q) &&
    !(['m', 't', 'l', 'l', 'i', 'b'].isPrefixOf q) &&
    !(['u', 's', 'e', 'm', 't', 'l'].isPrefixOf q) &&
    !(['\r'].isPrefixOf q) && !(['\n'].isPrefixOf q)

/-! ## The line loop by cases

The chain of `match` calls of `parseobj` tests the same text, the line after its leading
spaces, against each command in turn.  `lineKind` names the branch the chain takes and
`lineEffect` is the body of that branch; `parseLine_eq` below proves that together they
are `parseLine`. -/

/-- The branch of the chain of lines 188-273 taken on the text `q`, with the cursor left
by the successful `match`. -/
inductive LineKind where
  | skip (r : List Char)
  | vn (r : List Char)
  | vt (r : List Char)
  | v (r : List Char)
  | f (r : List Char)
  | s (r : List Char)
  | unknown
  | eof
deriving DecidableEq, Repr

/-- The branch taken on the text `q` (a line after its leading spaces).  `skip` stands
for the branches whose body is `nextline(obj)` alone: `#`, `vp`, `g`, `mtllib`, `usemtl`,
CR and LF. -/
def lineKind (q : List Char) : LineKind :=
  if ['#'].isPrefixOf q then .skip (q.drop 1)
  else if ['v', 'n'].isPrefixOf q then .vn (q.drop 2)
  else if ['v', 't'].isPrefixOf q then .vt (q.drop 2)
  else if ['v', 'p'].isPrefixOf q then .skip (q.drop 2)
  else if ['v'].isPrefixOf q then .v (q.drop 1)
  else if ['f'].isPrefixOf q then .f (q.drop 1)
  else if ['s'].isPrefixOf q then .s (q.drop 1)
  else if ['g'].isPrefixOf q then .skip (q.drop 1)
  else if ['m', 't', 'l', 'l', 'i', 'b'].isPrefixOf q then .skip (q.drop 6)
  else if ['u', 's', 'e', 'm', 't', 'l'].isPrefixOf q then .skip (q.drop 6)
  else if ['\r'].isPrefixOf q then .skip (q.drop 1)
  else if ['\n'].isPrefixOf q then .skip (q.drop 1)
  else if cur q != NUL then .unknown
  else .eof

/-- The body of the branch `k` of the chain, on the text `q`. -/
def lineEffect {α : Type} [LinearOrderedField α] (atof : List Char → α) (fuel : Nat)
    (cnt : Bool) (st : Globals α) (q : List Char) : LineKind → Option (Bool × Globals α)
  | .skip r => some (true, { st with ptr := nextline r })
  | .vn r =>
    if cnt then
      some (true, { st with objnvertnorm := st.objnvertnorm + 1, ptr := nextline r })
    else
      some (true, { st with
        objvertnorm := st.objvertnorm ++
          [(getfloat atof r).1, (getfloat atof (getfloat atof r).2).1,
            (getfloat atof (getfloat atof (getfloat atof r).2).2).1],
        ptr := nextline (getfloat atof (getfloat atof (getfloat atof r).2).2).2 })
  | .vt r =>
    if cnt then
      some (true, { st with objnverttex := st.objnverttex + 1, ptr := nextline r })
    else
      some (true, { st with
        objverttex := st.objverttex ++
          [(getfloat atof r).1, (getfloat atof (getfloat atof r).2).1,
            (getfloat atof (getfloat atof (getfloat atof r).2).2).1],
        ptr := nextline (getfloat atof (getfloat atof (getfloat atof r).2).2).2 })
  | .v r =>
    if cnt then
      some (true, { st with objnvertpos := st.objnvertpos + 1, ptr := nextline r })
    else
      some (true, { capture (getfloat atof r).1 (getfloat atof (getfloat atof r).2).1
                      (getfloat atof (getfloat atof (getfloat atof r).2).2).1 st with
        objvertpos := st.objvertpos ++
          [(getfloat atof r).1, (getfloat atof (getfloat atof r).2).1,
            (getfloat atof (getfloat atof (getfloat atof r).2).2).1],
        ptr := nextline (getfloat atof (getfloat atof (getfloat atof r).2).2).2 })
  | .f r =>
    match faceLoop fuel cnt { vpi := 0, vti := 0, vni := 0, idxcnt := 0 }
        { (if cnt then { st with objnfaces := st.objnfaces + 1 }
           else { st with objfacepos := st.objfacepos ++ [st.faceidxpos] } : Globals α)
          with ptr := r } with
    | none => none
    | some (fv, st2) =>
      some (true,
        { (if cnt then st2 else { st2 with objfacelen := st2.objfacelen ++ [fv.idxcnt] } :
            Globals α) with
          ptr := nextline
            (if cnt then st2 else { st2 with objfacelen := st2.objfacelen ++ [fv.idxcnt] } :
              Globals α).ptr })
  | .s r => some (true, { st with seggroup := (getint r).1, ptr := nextline (getint r).2 })
  | .unknown => some (false, failMark { st with ptr := q })
  | .eof => some (true, { st with ptr := q })

/-! ## The reference loop as a scan of the text

The control flow of the `do ... while` loop of the face branch depends on the text
alone.  `faceScan` runs the loop on the text and collects the locals after each
reference; `faceLoop_count` and `faceLoop_fill` below express `faceLoop` through it. -/

/-- The `do ... while` loop of lines 231-254 on the text alone: the locals at the end,
the cursor at the end, and the locals after each reference in turn. -/
def faceScan : Nat → FaceVars → List Char → Option (FaceVars × List Char × List FaceVars)
  | 0, _, _ => none
  | fuel + 1, fv, p =>
    let r := faceRef fv p
    if cur r.2 != NUL && cur r.2 != '\r' && cur r.2 != '\n' then
      match faceScan fuel r.1 r.2 with
      | none => none
      | some x => some (x.1, x.2.1, r.1 :: x.2.2)
    else some (r.1, r.2, [r.1])

/-- The entry of `objfaceidx` stored at lines 247-250 for the locals `fv`. -/
def toRef (seggroup : Int) (fv : FaceVars) : objfaceidxstr :=
  { seggroup := seggroup, vp := fv.vpi, vt := fv.vti, vn := fv.vni }

/-- The count pass and the fill pass have done the same work between the states `s`,
`t` and the states `s1`, `t1`: the cursors agree, the buffer is unchanged, and each
buffer of the fill pass has grown by what the count pass has added to its counter. -/
def Agree {α : Type} (s s1 t t1 : Globals α) : Prop :=
  t1.ptr = s1.ptr ∧ s1.contents = s.contents ∧
  t1.objvertpos.length + 3 * s.objnvertpos = t.objvertpos.length + 3 * s1.objnvertpos ∧
  t1.objvertnorm.length + 3 * s.objnvertnorm = t.objvertnorm.length + 3 * s1.objnvertnorm ∧
  t1.objverttex.length + 3 * s.objnverttex = t.objverttex.length + 3 * s1.objnverttex ∧
  t1.objfacepos.length + s.objnfaces = t.objfacepos.length + s1.objnfaces ∧
  t1.objfacelen.length + s.objnfaces = t.objfacelen.length + s1.objnfaces ∧
  t1.objfaceidx.length + s.objnfaceidxs = t.objfaceidx.length + s1.objnfaceidxs

/-! ## The lines the line loop comes to -/

/-- The text the line loop goes to after the accepted line `q` (a line after its leading
spaces): the text after the line feed that ends the line; after an empty line ended by a
lone LF, the text after the line feed of the line that follows it. -/
def afterLine (q : List Char) : List Char :=
  if cur q == '\n' then nextline q.tail else nextline q

/-- The lines the line loop comes to from the cursor `p`, each after its leading spaces,
as far as the end of the buffer or the first rejected line; `n` bounds their number. -/
def reachedFrom : Nat → List Char → List (List Char)
  | 0, _ => []
  | n + 1, p =>
    if cur (skipSpaces p) == NUL then []
    else if rejected (skipSpaces p) then [skipSpaces p]
    else skipSpaces p :: reachedFrom n (afterLine (skipSpaces p))

/-- The lines the line loop comes to from the cursor `p`. -/
def reached (p : List Char) : List (List Char) := reachedFrom p.length p

/-- The number of characters of the exponent part at the start of the text: `e` or `E`,
an optional sign and digits, one at least; 0 when the text starts with no exponent. -/
def exponentLength : List Char → Nat
  | [] => 0
  | c :: r =>
    if c == 'e' || c == 'E' then
      match r with
      | '-' :: r2 => if (readDigits r2 0 0).2.1 = 0 then 0 else 2 + (readDigits r2 0 0).2.1
      | '+' :: r2 => if (readDigits r2 0 0).2.1 = 0 then 0 else 2 + (readDigits r2 0 0).2.1
      | r2 => if (readDigits r2 0 0).2.1 = 0 then 0 else 1 + (readDigits r2 0 0).2.1
    else 0

/-- The number of characters of the unsigned literal at the start of the text: digits
with an optional point, one digit at least, and an optional exponent; 0 when the text
starts with no literal. -/
def unsignedLength (q : List Char) : Nat :=
  let ip := readDigits q 0 0
  match ip.2.2 with
  | '.' :: r =>
    if ip.2.1 + (readDigits r 0 0).2.1 = 0 then 0
    else ip.2.1 + 1 + (readDigits r 0 0).2.1 + exponentLength (readDigits r 0 0).2.2
  | r => if ip.2.1 = 0 then 0 else ip.2.1 + exponentLength r

/-- The number of characters of the longest prefix of the text that forms a decimal or
exponential literal, with its optional sign; 0 when the text starts with no literal. -/
def literalLength : List Char → Nat
  | '-' :: cs => if unsignedLength cs = 0 then 0 else 1 + unsignedLength cs
  | '+' :: cs => if unsignedLength cs = 0 then 0 else 1 + unsignedLength cs
  | cs => unsignedLength cs

/-! ## The state between the passes and the emitter -/

/-- The options and the transformation derived from them are the same in `s1` as in
`s`. -/
def SameConfig {α : Type} (s s1 : Globals α) : Prop :=
  s1.yrotation = s.yrotation ∧ s1.xorigin = s.xorigin ∧ s1.yorigin = s.yorigin ∧
  s1.zorigin = s.zorigin ∧ s1.height = s.height ∧ s1.xdelta = s.xdelta ∧
  s1.ydelta = s.ydelta ∧ s1.zdelta = s.zdelta ∧ s1.scale = s.scale

/-- The five counters of the counting pass are the same in `s1` as in `s`. -/
def SameCounts {α : Type} (s s1 : Globals α) : Prop :=
  s1.objnvertpos = s.objnvertpos ∧ s1.objnvertnorm = s.objnvertnorm ∧
  s1.objnverttex = s.objnverttex ∧ s1.objnfaces = s.objnfaces ∧
  s1.objnfaceidxs = s.objnfaceidxs

/-- The layout of the face buffers at a line boundary of the fill pass: `faceidxpos` is
the number of references stored, every face has its start and its length, and the
references of a face, one at least, lie inside `objfaceidx`. -/
def FacesOK {α : Type} (g : Globals α) : Prop :=
  g.faceidxpos = g.objfaceidx.length ∧ g.objfacepos.length = g.objfacelen.length ∧
  ∀ (i pos len : Nat), g.objfacepos[i]? = some pos → g.objfacelen[i]? = some len →
    1 ≤ len ∧ pos + len ≤ g.objfaceidx.length

/-- The state `g` is what the two passes leave on a successfully parsed input: from the
state `st`, at the start of the buffer with its five counters 0, the counting pass has
returned success, and so has the fill pass run after it. -/
def Parsed {α : Type} [LinearOrderedField α] (atof : List Char → α) (fuel : Nat)
    (st g : Globals α) : Prop :=
  st.ptr = st.contents ∧ st.objnvertpos = 0 ∧ st.objnvertnorm = 0 ∧ st.objnverttex = 0 ∧
  st.objnfaces = 0 ∧ st.objnfaceidxs = 0 ∧
  ∃ st1, parseobj atof fuel true st = some (true, st1) ∧
    parseobj atof fuel false st1 = some (true, g)

/-! # Theorems -/

/-! ## The scanner -/

theorem skipSpaces_idem (p : List Char) : skipSpaces (skipSpaces p) = skipSpaces p := by
  induction p with
  | nil => rfl
  | cons c cs ih =>
    by_cases h : (c != NUL && c == ' ') = true
    · simp only [skipSpaces, h, if_true, ih]
    · simp only [skipSpaces, h, if_false]

theorem match_fst (q str : List Char) (hq : skipSpaces q = q) :
    (match_ q str).1 = str.isPrefixOf q := by
  simp only [match_, hq]
  cases str.isPrefixOf q <;> simp

theorem match_snd_true (q str : List Char) (hq : skipSpaces q = q)
    (h : str.isPrefixOf q = true) : (match_ q str).2 = q.drop str.length := by
  simp only [match_, hq, h, if_true]

theorem match_snd_false (q str : List Char) (hq : skipSpaces q = q)
    (h : ¬ str.isPrefixOf q = true) : (match_ q str).2 = q := by
  simp only [match_, hq, h, Bool.false_eq_true, if_false]

theorem parseLine_eq {α : Type} [LinearOrderedField α] (atof : List Char → α) (fuel : Nat)
    (cnt : Bool) (st : Globals α) :
    parseLine atof fuel cnt st =
      lineEffect atof fuel cnt st (skipSpaces st.ptr) (lineKind (skipSpaces st.ptr)) := by
  have hq := skipSpaces_idem st.ptr
  unfold parseLine lineKind
  generalize skipSpaces st.ptr = q at hq
  dsimp only
  by_cases h0 : List.isPrefixOf ['#'] q = true
  · simp only [match_fst q _ hq, match_snd_true q _ hq h0, h0, if_true, lineEffect,
      List.length_cons, List.length_nil]
  simp only [match_fst q _ hq, match_snd_false q _ hq h0, h0, Bool.false_eq_true, if_false]
  by_cases h1 : List.isPrefixOf ['v', 'n'] q = true
  · simp only [match_fst q _ hq, match_snd_true q _ hq h1, h1, if_true, lineEffect,
      List.length_cons, List.length_nil]
  simp only [match_fst q _ hq, match_snd_false q _ hq h1, h1, Bool.false_eq_true, if_false]
  by_cases h2 : List.isPrefixOf ['v', 't'] q = true
  · simp only [match_fst q _ hq, match_snd_true q _ hq h2, h2, if_true, lineEffect,
      List.length_cons, List.length_nil]
  simp only [match_fst q _ hq, match_snd_false q _ hq h2, h2, Bool.false_eq_true, if_false]
  by_cases h3 : List.isPrefixOf ['v', 'p'] q = true
  · simp only [match_fst q _ hq, match_snd_true q _ hq h3, h3, if_true, lineEffect,
      List.length_cons, List.length_nil]
  simp only [match_fst q _ hq, match_snd_false q _ hq h3, h3, Bool.false_eq_true, if_false]
  by_cases h4 : List.isPrefixOf ['v'] q = true
  · simp only [match_fst q _ hq, match_snd_true q _ hq h4, h4, if_true, lineEffect,
      List.length_cons, List.length_nil]
  simp only [match_fst q _ hq, match_snd_false q _ hq h4, h4, Bool.false_eq_true, if_false]
  by_cases h5 : List.isPrefixOf ['f'] q = true
  · simp only [match_fst q _ hq, match_snd_true q _ hq h5, h5, if_true, lineEffect,
      List.length_cons, List.length_nil]
  simp only [match_fst q _ hq, match_snd_false q _ hq h5, h5, Bool.false_eq_true, if_false]
  by_cases h6 : List.isPrefixOf ['s'] q = true
  · simp only [match_fst q _ hq, match_snd_true q _ hq h6, h6, if_true, lineEffect,
      List.length_cons, List.length_nil]
  simp only [match_fst q _ hq, match_snd_false q _ hq h6, h6, Bool.false_eq_true, if_false]
  by_cases h7 : List.isPrefixOf ['g'] q = true
  · simp only [match_fst q _ hq, match_snd_true q _ hq h7, h7, if_true, lineEffect,
      List.length_cons, List.length_nil]
  simp only [match_fst q _ hq, match_snd_false q _ hq h7, h7, Bool.false_eq_true, if_false]
  by_cases h8 : List.isPrefixOf ['m', 't', 'l', 'l', 'i', 'b'] q = true
  · simp only [match_fst q _ hq, match_snd_true q _ hq h8, h8, if_true, lineEffect,
      List.length_cons, List.length_nil]
  simp only [match_fst q _ hq, match_snd_false q _ hq h8, h8, Bool.false_eq_true, if_false]
  by_cases h9 : List.isPrefixOf ['u', 's', 'e', 'm', 't', 'l'] q = true
  · simp only [match_fst q _ hq, match_snd_true q _ hq h9, h9, if_true, lineEffect,
      List.length_cons, List.length_nil]
  simp only [match_fst q _ hq, match_snd_false q _ hq h9, h9, Bool.false_eq_true, if_false]
  by_cases h10 : List.isPrefixOf ['\r'] q = true
  · simp only [match_fst q _ hq, match_snd_true q _ hq h10, h10, if_true, lineEffect,
      List.length_cons, List.length_nil]
  simp only [match_fst q _ hq, match_snd_false q _ hq h10, h10, Bool.false_eq_true, if_false]
  by_cases h11 : List.isPrefixOf ['\n'] q = true
  · simp only [match_fst q _ hq, match_snd_true q _ hq h11, h11, if_true, lineEffect,
      List.length_cons, List.length_nil]
  simp only [match_fst q _ hq, match_snd_false q _ hq h11, h11, Bool.false_eq_true, if_false]
  by_cases hc : (cur q != NUL) = true
  · simp only [hc, if_true, lineEffect]
  · simp only [hc, Bool.false_eq_true, if_false, lineEffect]

/-! ## The deduplication table -/

theorem sameIndex_iff (e o : objfaceidxstr) : sameIndex e o = true ↔ e = o := by
  cases e; cases o
  simp only [sameIndex, Bool.and_eq_true, beq_iff_eq, objfaceidxstr.mk.injEq]
  tauto

theorem mapsearch_eq (o : objfaceidxstr) (l : List objfaceidxstr) (i : Nat) :
    mapsearch o l i = if o ∈ l then some (i + l.indexOf o) else none := by
  induction l generalizing i with
  | nil => simp [mapsearch]
  | cons e es ih =>
    by_cases h : e = o
    · subst h
      simp [mapsearch, (sameIndex_iff e e).2 rfl]
    · have h1 : sameIndex e o = false := by
        cases hs : sameIndex e o
        · rfl
        · exact absurd ((sameIndex_iff e o).1 hs) h
      have h2 : ¬ o = e := fun hs => h hs.symm
      simp only [mapsearch, h1, Bool.false_eq_true, if_false, ih, List.mem_cons, h2, false_or,
        List.indexOf_cons_ne _ h]
      by_cases hm : o ∈ es
      · simp only [hm, if_true, Option.some.injEq]
        omega
      · simp only [hm, if_false]

theorem mapindex_eq (t : List objfaceidxstr) (o : objfaceidxstr) :
    mapindex t o = if o ∈ t then (t.indexOf o, t) else (t.length, t ++ [o]) := by
  unfold mapindex
  rw [mapsearch_eq]
  split <;> simp_all

theorem mapindex_fst (t : List objfaceidxstr) (o : objfaceidxstr) :
    (mapindex t o).1 = (mapindex t o).2.indexOf o := by
  rw [mapindex_eq]
  split
  · rfl
  · rename_i h
    simp [List.indexOf_append_of_not_mem h]

theorem mapindex_mem (t : List objfaceidxstr) (o : objfaceidxstr) :
    o ∈ (mapindex t o).2 := by
  rw [mapindex_eq]
  split <;> simp_all

theorem mapindex_extends (t : List objfaceidxstr) (o : objfaceidxstr) :
    t <+: (mapindex t o).2 := by
  rw [mapindex_eq]
  split
  · exact List.prefix_refl t
  · exact List.prefix_append t [o]

theorem indexOf_of_extends {t u : List objfaceidxstr} (h : t <+: u) {x : objfaceidxstr}
    (hx : x ∈ t) : u.indexOf x = t.indexOf x := by
  obtain ⟨s, rfl⟩ := h
  exact List.indexOf_append_of_mem hx

theorem mapindex_nodup (t : List objfaceidxstr) (o : objfaceidxstr) (h : t.Nodup) :
    (mapindex t o).2.Nodup := by
  rw [mapindex_eq]
  split
  · exact h
  · rename_i hn
    exact List.Nodup.append h (List.nodup_singleton o) (by simpa using hn)

theorem mapindex_mem_iff (t : List objfaceidxstr) (o x : objfaceidxstr) :
    x ∈ (mapindex t o).2 ↔ x ∈ t ∨ x = o := by
  rw [mapindex_eq]
  split
  · rename_i h
    constructor
    · exact Or.inl
    · rintro (h1 | rfl)
      · exact h1
      · exact h
  · simp

theorem mapindexAll_spec (rs t : List objfaceidxstr) :
    t <+: (mapindexAll rs t).2 ∧ (∀ x ∈ rs, x ∈ (mapindexAll rs t).2) ∧
      (mapindexAll rs t).1 = rs.map (fun r => (mapindexAll rs t).2.indexOf r) := by
  induction rs generalizing t with
  | nil => simp [mapindexAll]
  | cons r rs ih =>
    obtain ⟨h1, h2, h3⟩ := ih (mapindex t r).2
    have hp := mapindex_extends t r
    have hm := mapindex_mem t r
    have hm2 : r ∈ (mapindexAll rs (mapindex t r).2).2 := h1.subset hm
    simp only [mapindexAll]
    refine ⟨hp.trans h1, ?_, ?_⟩
    · intro x hx
      rcases List.mem_cons.1 hx with rfl | hx
      · exact hm2
      · exact h2 x hx
    · rw [List.map_cons, ← h3, indexOf_of_extends h1 hm, ← mapindex_fst]

theorem mapindexAll_nodup (rs t : List objfaceidxstr) (h : t.Nodup) :
    (mapindexAll rs t).2.Nodup ∧ ∀ x, x ∈ (mapindexAll rs t).2 ↔ x ∈ t ∨ x ∈ rs := by
  induction rs generalizing t with
  | nil => simp [mapindexAll, h]
  | cons r rs ih =>
    obtain ⟨h1, h2⟩ := ih (mapindex t r).2 (mapindex_nodup t r h)
    simp only [mapindexAll]
    refine ⟨h1, fun x => ?_⟩
    rw [h2, mapindex_mem_iff, List.mem_cons]
    tauto

theorem mapindexAll_append (xs ys t : List objfaceidxstr) :
    mapindexAll (xs ++ ys) t =
      ((mapindexAll xs t).1 ++ (mapindexAll ys (mapindexAll xs t).2).1,
        (mapindexAll ys (mapindexAll xs t).2).2) := by
  induction xs generalizing t with
  | nil => simp [mapindexAll]
  | cons x xs ih => simp [mapindexAll, ih]

/-! ## The triangulation loop -/

theorem triLoop_spec (F : List objfaceidxstr) (v0 : Nat) (n k : Nat) (t : List objfaceidxstr)
    (h : k + n + 2 ≤ F.length) :
    ∃ tris m, triLoop F v0 n k t = some (tris, m) ∧ t <+: m ∧ tris.length = n ∧
      (∀ x ∈ tris, x.1 = v0) ∧
      ∀ j, j < n → ∀ r1 r2, F[k + j + 1]? = some r1 → F[k + j + 2]? = some r2 →
        r1 ∈ m ∧ r2 ∈ m ∧ tris[j]? = some (v0, m.indexOf r1, m.indexOf r2) := by
  induction n generalizing k t with
  | zero =>
    exact ⟨[], t, rfl, List.prefix_refl t, rfl, by simp, fun j hj => absurd hj (Nat.not_lt_zero j)⟩
  | succ n ih =>
    have h1 : k + 1 < F.length := by omega
    have h2 : k + 2 < F.length := by omega
    obtain ⟨tris, m, he, hp, hl, hv, hj⟩ :=
      ih (k + 1) (mapindex (mapindex t F[k + 1]).2 F[k + 2]).2 (by omega)
    have hp1 := mapindex_extends t F[k + 1]
    have hp2 := mapindex_extends (mapindex t F[k + 1]).2 F[k + 2]
    have hm1 := mapindex_mem t F[k + 1]
    have hm2 := mapindex_mem (mapindex t F[k + 1]).2 F[k + 2]
    refine ⟨(v0, (mapindex t F[k + 1]).1, (mapindex (mapindex t F[k + 1]).2 F[k + 2]).1) :: tris,
      m, ?_, (hp1.trans hp2).trans hp, by simp [hl], ?_, ?_⟩
    · simp only [triLoop, List.getElem?_eq_getElem h1, List.getElem?_eq_getElem h2, he]
    · intro x hx
      rcases List.mem_cons.1 hx with rfl | hx
      · rfl
      · exact hv x hx
    · intro j hjn r1 r2 hr1 hr2
      cases j with
      | zero =>
        rw [List.getElem?_eq_getElem h1] at hr1
        rw [List.getElem?_eq_getElem h2] at hr2
        cases hr1
        cases hr2
        refine ⟨(hp2.trans hp).subset hm1, hp.subset hm2, ?_⟩
        rw [indexOf_of_extends (hp2.trans hp) hm1, indexOf_of_extends hp hm2,
          ← mapindex_fst, ← mapindex_fst]
        simp
      | succ j =>
        have e1 : k + (j + 1) + 1 = k + 1 + j + 1 := by omega
        have e2 : k + (j + 1) + 2 = k + 1 + j + 2 := by omega
        rw [e1] at hr1
        rw [e2] at hr2
        obtain ⟨a, b, c⟩ := hj j (by omega) r1 r2 hr1 hr2
        exact ⟨a, b, by simpa using c⟩

theorem faceTris_spec {α : Type} (g : Globals α) (faceidx pos N : Nat)
    (t : List objfaceidxstr) (r0 : objfaceidxstr)
    (hpos : g.objfacepos[faceidx]? = some pos) (hlen : g.objfacelen[faceidx]? = some N)
    (hr0 : g.objfaceidx[pos]? = some r0)
    (hin : pos + (N - 2) + 2 ≤ g.objfaceidx.length) :
    ∃ tris m, faceTris g faceidx t = some (tris, m) ∧ t <+: m ∧ r0 ∈ m ∧
      tris.length = N - 2 ∧ (∀ x ∈ tris, x.1 = m.indexOf r0) ∧
      ∀ j, j < N - 2 → ∀ r1 r2, g.objfaceidx[pos + j + 1]? = some r1 →
        g.objfaceidx[pos + j + 2]? = some r2 →
        r1 ∈ m ∧ r2 ∈ m ∧ tris[j]? = some (m.indexOf r0, m.indexOf r1, m.indexOf r2) := by
  obtain ⟨tris, m, he, hp, hl, hv, hj⟩ :=
    triLoop_spec g.objfaceidx (mapindex t r0).1 (N - 2) pos (mapindex t r0).2 hin
  have hm0 := mapindex_mem t r0
  have hv0 : (mapindex t r0).1 = m.indexOf r0 := by
    rw [indexOf_of_extends hp hm0, ← mapindex_fst]
  refine ⟨tris, m, ?_, (mapindex_extends t r0).trans hp, hp.subset hm0, hl, ?_, ?_⟩
  · simp only [faceTris, hpos, hlen, hr0, he]
  · intro x hx
    rw [hv x hx, hv0]
  · intro j hjn r1 r2 hr1 hr2
    obtain ⟨a, b, c⟩ := hj j hjn r1 r2 hr1 hr2
    exact ⟨a, b, by rw [c, hv0]⟩

theorem triLoop_fst (F : List objfaceidxstr) (v0 : Nat) (n k : Nat)
    (t : List objfaceidxstr) (tris : List (Nat × Nat × Nat)) (m : List objfaceidxstr)
    (h : triLoop F v0 n k t = some (tris, m)) : t <+: m ∧ ∀ x ∈ tris, x.1 = v0 := by
  induction n generalizing k t tris m with
  | zero =>
    simp only [triLoop, Option.some.injEq, Prod.mk.injEq] at h
    obtain ⟨rfl, rfl⟩ := h
    exact ⟨List.prefix_refl _, by simp⟩
  | succ n ih =>
    unfold triLoop at h
    split at h
    · rename_i r1 r2 _ _
      dsimp only at h
      split at h
      · rename_i rest hrest
        simp only [Option.some.injEq, Prod.mk.injEq] at h
        obtain ⟨rfl, rfl⟩ := h
        obtain ⟨hp, hv⟩ := ih (k + 1) _ rest.1 rest.2 hrest
        refine ⟨((mapindex_extends t r1).trans (mapindex_extends _ r2)).trans hp, ?_⟩
        intro x hx
        rcases List.mem_cons.1 hx with rfl | hx
        · rfl
        · exact hv x hx
      · cases h
    · cases h

theorem indexOf_le_of_getElem? (t : List objfaceidxstr) (o : objfaceidxstr) (k : Nat)
    (h : t[k]? = some o) : t.indexOf o ≤ k := by
  induction t generalizing k with
  | nil => simp at h
  | cons e es ih =>
    by_cases he : e = o
    · rw [List.indexOf_cons_eq _ he]
      exact Nat.zero_le k
    · rw [List.indexOf_cons_ne _ he]
      cases k with
      | zero =>
        simp only [List.getElem?_cons_zero, Option.some.injEq] at h
        exact absurd h he
      | succ k =>
        simp only [List.getElem?_cons_succ] at h
        exact Nat.succ_le_succ (ih k h)

/-- C2: in a sequence of `mapindex` calls that starts from the empty table, the calls
number `i` and `j` both return an index, and the two indices are equal if and only if
the two arguments agree on `seggroup`, `vp`, `vt` and `vn`. -/
theorem mapindex_same_index_iff (rs : List objfaceidxstr) (i j : Nat)
    (hi : i < rs.length) (hj : j < rs.length) :
    ∃ a b, (mapindexAll rs []).1[i]? = some a ∧ (mapindexAll rs []).1[j]? = some b ∧
      (a = b ↔ (rs[i].seggroup = rs[j].seggroup ∧ rs[i].vp = rs[j].vp ∧
        rs[i].vt = rs[j].vt ∧ rs[i].vn = rs[j].vn)) := by
  obtain ⟨_, hmem, hout⟩ := mapindexAll_spec rs []
  have hmi := hmem rs[i] (List.getElem_mem hi)
  have hmj := hmem rs[j] (List.getElem_mem hj)
  refine ⟨(mapindexAll rs []).2.indexOf rs[i], (mapindexAll rs []).2.indexOf rs[j], ?_, ?_, ?_⟩
  · rw [hout, List.getElem?_map, List.getElem?_eq_getElem hi]
    rfl
  · rw [hout, List.getElem?_map, List.getElem?_eq_getElem hj]
    rfl
  · rw [List.indexOf_inj hmi hmj]
    constructor
    · intro h
      rw [h]
      exact ⟨rfl, rfl, rfl, rfl⟩
    · rintro ⟨h1, h2, h3, h4⟩
      cases hri : rs[i]
      cases hrj : rs[j]
      rw [hri, hrj] at h1 h2 h3 h4
      simp only at h1 h2 h3 h4
      subst h1 h2 h3 h4
      rfl

/-- Witness of C2: in the calls `a, b, a` the first and the third return the same
index. -/
theorem mapindex_same_index_iff_witness :
    ∃ a b, (mapindexAll [⟨0, 1, 0, 0⟩, ⟨0, 2, 0, 0⟩, ⟨0, 1, 0, 0⟩] []).1[0]? = some a ∧
      (mapindexAll [⟨0, 1, 0, 0⟩, ⟨0, 2, 0, 0⟩, ⟨0, 1, 0, 0⟩] []).1[2]? = some b ∧
      (a = b ↔
        (([⟨0, 1, 0, 0⟩, ⟨0, 2, 0, 0⟩, ⟨0, 1, 0, 0⟩] : List objfaceidxstr)[0].seggroup =
          ([⟨0, 1, 0, 0⟩, ⟨0, 2, 0, 0⟩, ⟨0, 1, 0, 0⟩] : List objfaceidxstr)[2].seggroup ∧
        ([⟨0, 1, 0, 0⟩, ⟨0, 2, 0, 0⟩, ⟨0, 1, 0, 0⟩] : List objfaceidxstr)[0].vp =
          ([⟨0, 1, 0, 0⟩, ⟨0, 2, 0, 0⟩, ⟨0, 1, 0, 0⟩] : List objfaceidxstr)[2].vp ∧
        ([⟨0, 1, 0, 0⟩, ⟨0, 2, 0, 0⟩, ⟨0, 1, 0, 0⟩] : List objfaceidxstr)[0].vt =
          ([⟨0, 1, 0, 0⟩, ⟨0, 2, 0, 0⟩, ⟨0, 1, 0, 0⟩] : List objfaceidxstr)[2].vt ∧
        ([⟨0, 1, 0, 0⟩, ⟨0, 2, 0, 0⟩, ⟨0, 1, 0, 0⟩] : List objfaceidxstr)[0].vn =
          ([⟨0, 1, 0, 0⟩, ⟨0, 2, 0, 0⟩, ⟨0, 1, 0, 0⟩] : List objfaceidxstr)[2].vn)) :=
  mapindex_same_index_iff [⟨0, 1, 0, 0⟩, ⟨0, 2, 0, 0⟩, ⟨0, 1, 0, 0⟩] 0 2 (by decide) (by decide)

/-- C3: `mapindex` is an append-only map in first-seen order.  A tuple that is not in the
table gets the index `nmaps`, is stored there, `nmaps` grows by one and the earlier
entries stay; a tuple that is in the table gets its (first) position and the table
stays.  In a sequence of calls from the empty table, a call whose tuple was not resolved
before returns the number of distinct tuples resolved before it; and the first face
processed from the empty table has 0 as its first vertex, the first component of all its
triples. -/
theorem mapindex_first_seen {α : Type} :
    (∀ (t : List objfaceidxstr) (o : objfaceidxstr), o ∉ t →
      (mapindex t o).1 = nmaps t ∧ (mapindex t o).2[nmaps t]? = some o ∧
      nmaps (mapindex t o).2 = nmaps t + 1 ∧
      ∀ k, k < nmaps t → (mapindex t o).2[k]? = t[k]?) ∧
    (∀ (t : List objfaceidxstr) (o : objfaceidxstr), o ∈ t →
      (mapindex t o).2 = t ∧ t[(mapindex t o).1]? = some o ∧
      ∀ k, k < (mapindex t o).1 → t[k]? ≠ some o) ∧
    (∀ (rs : List objfaceidxstr) (i : Nat) (h : i < rs.length), rs[i] ∉ rs.take i →
      (mapindexAll rs []).1[i]? = some (rs.take i).dedup.length) ∧
    (∀ (g : Globals α) (pos : Nat) (r0 : objfaceidxstr) (tris : List (Nat × Nat × Nat))
      (m : List objfaceidxstr), g.objfacepos[0]? = some pos →
      g.objfaceidx[pos]? = some r0 → faceTris g 0 [] = some (tris, m) →
      (mapindex [] r0).1 = 0 ∧ m[0]? = some r0 ∧ ∀ x ∈ tris, x.1 = 0) := by
  refine ⟨?_, ?_, ?_, ?_⟩
  · intro t o h
    rw [mapindex_eq, if_neg h]
    refine ⟨rfl, ?_, ?_, ?_⟩
    · simp [nmaps]
    · simp [nmaps]
    · intro k hk
      exact List.getElem?_append_left hk
  · intro t o h
    rw [mapindex_eq, if_pos h]
    refine ⟨rfl, ?_, ?_⟩
    · rw [← List.get?_eq_getElem?]
      exact List.indexOf_get? h
    · intro k hk hko
      exact absurd (indexOf_le_of_getElem? t o k hko) (not_le.2 hk)
  · intro rs i h hnew
    have hsplit : rs = rs.take i ++ rs[i] :: rs.drop (i + 1) := by
      rw [← List.drop_eq_getElem_cons h, List.take_append_drop]
    have hnd := mapindexAll_nodup (rs.take i) [] List.nodup_nil
    have hlen : (mapindexAll (rs.take i) []).1.length = i := by
      rw [(mapindexAll_spec (rs.take i) []).2.2, List.length_map, List.length_take]
      omega
    have hnot : rs[i] ∉ (mapindexAll (rs.take i) []).2 := by
      rw [hnd.2]
      simpa using hnew
    have hcard : (mapindexAll (rs.take i) []).2.length = (rs.take i).dedup.length := by
      apply List.Perm.length_eq
      rw [List.perm_ext_iff_of_nodup hnd.1 (List.nodup_dedup _)]
      intro x
      rw [hnd.2, List.mem_dedup]
      simp
    conv_lhs => rw [hsplit]
    rw [mapindexAll_append]
    simp only [mapindexAll]
    rw [List.getElem?_append_right (by omega), hlen, Nat.sub_self, mapindex_eq, if_neg hnot]
    simp [hcard]
  · intro g pos r0 tris m hpos hr0 hf
    unfold faceTris at hf
    rw [hpos] at hf
    split at hf
    · rename_i pos1 facelen hp1 _
      cases hp1
      rw [hr0] at hf
      have h0 : mapindex [] r0 = (0, [r0]) := by simp [mapindex, mapsearch]
      simp only [h0] at hf
      obtain ⟨hp, hv⟩ := triLoop_fst _ _ _ _ _ _ _ hf
      refine ⟨by rw [h0], ?_, hv⟩
      obtain ⟨s, rfl⟩ := hp
      simp
    · cases hf

/-- Witness of C3: a new tuple in a one-entry table, a known tuple in a two-entry table,
the fourth call of `a, b, a, c`, which is the third distinct tuple, and the quad
`f 1 2 3 4` as first face. -/
theorem mapindex_first_seen_witness :
    ((mapindex [⟨0, 1, 0, 0⟩] ⟨0, 2, 0, 0⟩).1 = nmaps [⟨0, 1, 0, 0⟩]) ∧
    ((mapindex [⟨0, 1, 0, 0⟩, ⟨0, 2, 0, 0⟩] ⟨0, 2, 0, 0⟩).2 = [⟨0, 1, 0, 0⟩, ⟨0, 2, 0, 0⟩]) ∧
    ((mapindexAll [⟨0, 1, 0, 0⟩, ⟨0, 2, 0, 0⟩, ⟨0, 1, 0, 0⟩, ⟨0, 3, 0, 0⟩] []).1[3]? =
      some (List.take 3
        ([⟨0, 1, 0, 0⟩, ⟨0, 2, 0, 0⟩, ⟨0, 1, 0, 0⟩, ⟨0, 3, 0, 0⟩] :
          List objfaceidxstr)).dedup.length) ∧
    ((mapindex [] ⟨0, 1, 0, 0⟩).1 = 0 ∧
      ([⟨0, 1, 0, 0⟩, ⟨0, 2, 0, 0⟩, ⟨0, 3, 0, 0⟩, ⟨0, 4, 0, 0⟩] : List objfaceidxstr)[0]? =
        some ⟨0, 1, 0, 0⟩ ∧
      ∀ x ∈ [(0, 1, 2), (0, 2, 3)], x.1 = 0) :=
  ⟨((@mapindex_first_seen ℚ).1 [⟨0, 1, 0, 0⟩] ⟨0, 2, 0, 0⟩ (by decide)).1,
   ((@mapindex_first_seen ℚ).2.1 [⟨0, 1, 0, 0⟩, ⟨0, 2, 0, 0⟩] ⟨0, 2, 0, 0⟩ (by decide)).1,
   (@mapindex_first_seen ℚ).2.2.1 [⟨0, 1, 0, 0⟩, ⟨0, 2, 0, 0⟩, ⟨0, 1, 0, 0⟩, ⟨0, 3, 0, 0⟩] 3
     (by decide) (by decide),
   (@mapindex_first_seen ℚ).2.2.2 quadMesh 0 ⟨0, 1, 0, 0⟩ [(0, 1, 2), (0, 2, 3)]
     [⟨0, 1, 0, 0⟩, ⟨0, 2, 0, 0⟩, ⟨0, 3, 0, 0⟩, ⟨0, 4, 0, 0⟩] (by decide) (by decide)
     (by decide)⟩

/-- C4: a face of `N ≥ 3` references stored at `pos .. pos+N-1` of `objfaceidx` makes the
triangulation loop write exactly `N-2` triples, and the `i`-th one (`i = 1 .. N-2`) is
`(resolve r_0, resolve r_i, resolve r_(i+1))`, where resolving is `mapindex` on the
table left by the face, which keeps that table. -/
theorem fan_triangulation {α : Type} (g : Globals α) (faceidx pos N : Nat)
    (mapidx : List objfaceidxstr) (hpos : g.objfacepos[faceidx]? = some pos)
    (hlen : g.objfacelen[faceidx]? = some N) (hN : 3 ≤ N)
    (hin : pos + N ≤ g.objfaceidx.length) :
    ∃ tris m, faceTris g faceidx mapidx = some (tris, m) ∧ tris.length = N - 2 ∧
      ∀ i, 1 ≤ i → i ≤ N - 2 →
        ∃ r0 ri rj, g.objfaceidx[pos]? = some r0 ∧ g.objfaceidx[pos + i]? = some ri ∧
          g.objfaceidx[pos + i + 1]? = some rj ∧
          (mapindex m r0).2 = m ∧ (mapindex m ri).2 = m ∧ (mapindex m rj).2 = m ∧
          tris[i - 1]? = some ((mapindex m r0).1, (mapindex m ri).1, (mapindex m rj).1) := by
  have h0 : pos < g.objfaceidx.length := by omega
  obtain ⟨tris, m, he, _, hm0, hl, _, hj⟩ :=
    faceTris_spec g faceidx pos N mapidx g.objfaceidx[pos] hpos hlen
      (List.getElem?_eq_getElem h0) (by omega)
  refine ⟨tris, m, he, hl, ?_⟩
  intro i hi1 hi2
  have h1 : pos + i < g.objfaceidx.length := by omega
  have h2 : pos + i + 1 < g.objfaceidx.length := by omega
  have e1 : pos + (i - 1) + 1 = pos + i := by omega
  have e2 : pos + (i - 1) + 2 = pos + i + 1 := by omega
  obtain ⟨hm1, hm2, ht⟩ := hj (i - 1) (by omega) g.objfaceidx[pos + i] g.objfaceidx[pos + i + 1]
    (by rw [e1]; exact List.getElem?_eq_getElem h1)
    (by rw [e2]; exact List.getElem?_eq_getElem h2)
  refine ⟨g.objfaceidx[pos], g.objfaceidx[pos + i], g.objfaceidx[pos + i + 1],
    List.getElem?_eq_getElem h0, List.getElem?_eq_getElem h1, List.getElem?_eq_getElem h2,
    ?_, ?_, ?_, ?_⟩
  · rw [mapindex_eq, if_pos hm0]
  · rw [mapindex_eq, if_pos hm1]
  · rw [mapindex_eq, if_pos hm2]
  · rw [ht, mapindex_eq, mapindex_eq, mapindex_eq, if_pos hm0, if_pos hm1, if_pos hm2]

/-- Witness of C4: the quad `f 1 2 3 4` gives the two triples `0,1,2` and `0,2,3`. -/
theorem fan_triangulation_witness :
    faceTris quadMesh 0 [] =
      some ([(0, 1, 2), (0, 2, 3)],
        [⟨0, 1, 0, 0⟩, ⟨0, 2, 0, 0⟩, ⟨0, 3, 0, 0⟩, ⟨0, 4, 0, 0⟩]) ∧
    ∃ tris m, faceTris quadMesh 0 [] = some (tris, m) ∧ tris.length = 4 - 2 ∧
      ∀ i, 1 ≤ i → i ≤ 4 - 2 →
        ∃ r0 ri rj, quadMesh.objfaceidx[0]? = some r0 ∧
          quadMesh.objfaceidx[0 + i]? = some ri ∧
          quadMesh.objfaceidx[0 + i + 1]? = some rj ∧
          (mapindex m r0).2 = m ∧ (mapindex m ri).2 = m ∧ (mapindex m rj).2 = m ∧
          tris[i - 1]? = some ((mapindex m r0).1, (mapindex m ri).1, (mapindex m rj).1) :=
  ⟨by decide, fan_triangulation quadMesh 0 0 4 [] (by decide) (by decide) (by decide)
    (by decide)⟩

/-! ## The coordinate conversion -/

theorem derive_bounds {α : Type} [LinearOrderedField α] (g : Globals α) :
    (derive g).maxx = g.maxx ∧ (derive g).minx = g.minx ∧ (derive g).maxy = g.maxy ∧
      (derive g).miny = g.miny ∧ (derive g).maxz = g.maxz ∧ (derive g).minz = g.minz :=
  ⟨rfl, rfl, rfl, rfl, rfl, rfl⟩

theorem genobj2acorn_corners {α : Type} [LinearOrderedField α] (cos sin : α → α)
    (g : Globals α) (doc : Shape α) (h : genobj2acorn cos sin g = some doc) :
    doc.newmin = convertPosition cos sin g { x := g.minx, y := g.miny, z := g.minz } ∧
      doc.newmax = convertPosition cos sin g { x := g.maxx, y := g.maxy, z := g.maxz } := by
  unfold genobj2acorn at h
  dsimp only at h
  split at h
  · cases h
  · split at h
    · cases h
    · split at h
      · simp only [Option.some.injEq] at h
        subst h
        exact ⟨rfl, rfl⟩
      · cases h

/-- C5: with `yrotation = 0` (so that `cos` gives 1 and `sin` gives 0), the three deltas
0 and `scale = 1`, `convertPosition` and `convertNormal` return their input. -/
theorem identity_transform {α : Type} [LinearOrderedField α] (cos sin : α → α)
    (hcos : cos 0 = 1) (hsin : sin 0 = 0) (g : Globals α) (hr : g.yrotation = 0)
    (hx : g.xdelta = 0) (hy : g.ydelta = 0) (hz : g.zdelta = 0) (hs : g.scale = 1)
    (p : Xyz α) :
    convertPosition cos sin g p = p ∧ convertNormal cos sin g p = p := by
  cases p
  simp [convertPosition, convertNormal, hr, hx, hy, hz, hs, hcos, hsin]

/-- Witness of C5: the initial state with the real cosine and sine. -/
theorem identity_transform_witness :
    convertPosition Real.cos Real.sin (Globals.init []) { x := 1, y := 2, z := 3 } =
        { x := 1, y := 2, z := 3 } ∧
      convertNormal Real.cos Real.sin (Globals.init []) { x := 1, y := 2, z := 3 } =
        { x := 1, y := 2, z := 3 } :=
  identity_transform Real.cos Real.sin Real.cos_zero Real.sin_zero (Globals.init []) rfl rfl
    rfl rfl rfl { x := 1, y := 2, z := 3 }

/-- C6: when `maxy > miny` and `height > 0`, after the end of the fill pass has derived
`scale = height / (maxy - miny)`, the y coordinates of the two converted corners of the
bounding box differ by `height`, whatever the rotation and the origin fractions; these
corners are the ones `genobj2acorn` writes in the boundary comment. -/
theorem scale_to_height {α : Type} [LinearOrderedField α] (cos sin : α → α) (g : Globals α)
    (hy : g.maxy > g.miny) (hH : g.height > 0) :
    (derive g).scale = g.height / (g.maxy - g.miny) ∧
    (convertPosition cos sin (derive g) { x := g.maxx, y := g.maxy, z := g.maxz }).y
        - (convertPosition cos sin (derive g) { x := g.minx, y := g.miny, z := g.minz }).y
      = g.height ∧
    ∀ doc, genobj2acorn cos sin (derive g) = some doc →
      doc.newmax.y - doc.newmin.y = g.height := by
  have hd : g.maxy - g.miny ≠ 0 := ne_of_gt (sub_pos.2 hy)
  have hs : (derive g).scale = g.height / (g.maxy - g.miny) := by
    simp [derive, hH]
  have hc : (convertPosition cos sin (derive g) { x := g.maxx, y := g.maxy, z := g.maxz }).y
        - (convertPosition cos sin (derive g) { x := g.minx, y := g.miny, z := g.minz }).y
      = g.height := by
    simp only [convertPosition, hs]
    field_simp
    ring
  refine ⟨hs, hc, ?_⟩
  intro doc hdoc
  obtain ⟨h1, h2⟩ := genobj2acorn_corners cos sin (derive g) doc hdoc
  rw [h1, h2]
  exact hc

theorem deriveScale_some {α : Type} [LinearOrderedField α] (g : Globals α) (s : α)
    (h : deriveScale g = some s) : (derive g).scale = s := by
  unfold deriveScale at h
  by_cases hH : g.height > 0
  · simp only [hH, if_true] at h
    by_cases hd : g.maxy - g.miny = 0
    · simp [hd] at h
    · simp only [hd, if_false, Option.some.injEq] at h
      simp only [derive, hH, if_true]
      exact h
  · simp only [hH, if_false, Option.some.injEq] at h
    simp only [derive, hH, if_false]
    exact h

theorem deriveScale_ne_none {α : Type} [LinearOrderedField α] (g : Globals α) :
    deriveScale g ≠ none ↔ (g.height > 0 → g.maxy ≠ g.miny) := by
  unfold deriveScale
  by_cases hH : g.height > 0
  · by_cases hd : g.maxy - g.miny = 0
    · simp [hH, hd, sub_eq_zero.1 hd]
    · have hne : g.maxy ≠ g.miny := fun h => hd (sub_eq_zero.2 h)
      simp [hH, hd, hne]
  · simp [hH]

/-- C7, amended: the end of the fill pass sets the delta of an axis whose origin fraction
`f` is set (`f ≥ 0`) to `-(f*(max-min)+min)` and keeps the delta of an axis whose fraction
is unset.  When the scale is a number (it is left as it is without a target height, and
is `height / (maxy - miny)` with a target height and `maxy ≠ miny`), `convertPosition`
with these deltas sends a point at the fraction `yorigin` of the y range to `y = 0`, and
a point at the fractions `xorigin`, `zorigin` of the x and z ranges to `x = 0` and
`z = 0`, for every rotation. -/
theorem origin_deltas {α : Type} [LinearOrderedField α] (cos sin : α → α) (g : Globals α) :
    (g.xorigin ≥ 0 → (derive g).xdelta = -(g.xorigin * (g.maxx - g.minx) + g.minx)) ∧
    (g.yorigin ≥ 0 → (derive g).ydelta = -(g.yorigin * (g.maxy - g.miny) + g.miny)) ∧
    (g.zorigin ≥ 0 → (derive g).zdelta = -(g.zorigin * (g.maxz - g.minz) + g.minz)) ∧
    (g.xorigin < 0 → (derive g).xdelta = g.xdelta) ∧
    (g.yorigin < 0 → (derive g).ydelta = g.ydelta) ∧
    (g.zorigin < 0 → (derive g).zdelta = g.zdelta) ∧
    (∀ s, deriveScale g = some s →
      (derive g).scale = s ∧
      (g.yorigin ≥ 0 → ∀ p : Xyz α, p.y = g.miny + g.yorigin * (g.maxy - g.miny) →
        (convertPosition cos sin (derive g) p).y = 0) ∧
      (g.xorigin ≥ 0 → g.zorigin ≥ 0 → ∀ p : Xyz α,
        p.x = g.minx + g.xorigin * (g.maxx - g.minx) →
        p.z = g.minz + g.zorigin * (g.maxz - g.minz) →
        (convertPosition cos sin (derive g) p).x = 0 ∧
          (convertPosition cos sin (derive g) p).z = 0)) := by
  refine ⟨?_, ?_, ?_, ?_, ?_, ?_, ?_⟩
  · intro h
    simp [derive, h]
  · intro h
    simp [derive, h]
  · intro h
    simp [derive, h]
  · intro h
    simp [derive, not_le.2 h]
  · intro h
    simp [derive, not_le.2 h]
  · intro h
    simp [derive, not_le.2 h]
  · intro s hs
    refine ⟨deriveScale_some g s hs, ?_, ?_⟩
    · intro h p hp
      have hd : (derive g).ydelta = -(g.yorigin * (g.maxy - g.miny) + g.miny) := by
        simp [derive, h]
      simp only [convertPosition, hd, hp]
      ring
    · intro hx hz p hpx hpz
      have hdx : (derive g).xdelta = -(g.xorigin * (g.maxx - g.minx) + g.minx) := by
        simp [derive, hx]
      have hdz : (derive g).zdelta = -(g.zorigin * (g.maxz - g.minz) + g.minz) := by
        simp [derive, hz]
      simp only [convertPosition, hdx, hdz, hpx, hpz]
      constructor <;> ring

/-- Witness of C6: the box `[0,4] × [-1,3] × [-2,2]` with `height = 2`, under the rotation
with cosine 3/5 and sine 4/5. -/
theorem scale_to_height_witness :
    (derive bottomBox).scale = bottomBox.height / (bottomBox.maxy - bottomBox.miny) ∧
    (convertPosition (fun _ => 3 / 5) (fun _ => 4 / 5) (derive bottomBox)
        { x := bottomBox.maxx, y := bottomBox.maxy, z := bottomBox.maxz }).y
      - (convertPosition (fun _ => 3 / 5) (fun _ => 4 / 5) (derive bottomBox)
        { x := bottomBox.minx, y := bottomBox.miny, z := bottomBox.minz }).y
      = bottomBox.height ∧
    ∀ doc, genobj2acorn (fun _ => 3 / 5) (fun _ => 4 / 5) (derive bottomBox) = some doc →
      doc.newmax.y - doc.newmin.y = bottomBox.height :=
  scale_to_height (fun _ => 3 / 5) (fun _ => 4 / 5) bottomBox (by decide) (by decide)

/-- Witness of C7 (amended): with `-origin:bottom -height:2` on the box
`[0,4] × [-1,3] × [-2,2]` the deltas are `-2, 1, 0`, the scale is the number `1/2`, and
the point `(2, -1, 0)` goes to the origin. -/
theorem origin_deltas_witness :
    (derive bottomBox).xdelta = -(bottomBox.xorigin * (bottomBox.maxx - bottomBox.minx)
      + bottomBox.minx) ∧
    (derive bottomBox).scale = 1 / 2 ∧
    (convertPosition (fun _ => 3 / 5) (fun _ => 4 / 5) (derive bottomBox)
      { x := 2, y := -1, z := 0 }).y = 0 ∧
    ((convertPosition (fun _ => 3 / 5) (fun _ => 4 / 5) (derive bottomBox)
      { x := 2, y := -1, z := 0 }).x = 0 ∧
     (convertPosition (fun _ => 3 / 5) (fun _ => 4 / 5) (derive bottomBox)
      { x := 2, y := -1, z := 0 }).z = 0) ∧
    (derive (Globals.init [] : Globals ℚ)).zdelta = (Globals.init [] : Globals ℚ).zdelta :=
  have hs : deriveScale bottomBox = some (1 / 2) := by
    norm_num [deriveScale, bottomBox, Globals.init]
  ⟨(origin_deltas (fun _ => 3 / 5) (fun _ => 4 / 5) bottomBox).1
     (by norm_num [bottomBox, Globals.init]),
   ((origin_deltas (fun _ => 3 / 5) (fun _ => 4 / 5) bottomBox).2.2.2.2.2.2 (1 / 2) hs).1,
   ((origin_deltas (fun _ => 3 / 5) (fun _ => 4 / 5) bottomBox).2.2.2.2.2.2 (1 / 2) hs).2.1
     (by norm_num [bottomBox, Globals.init])
     { x := 2, y := -1, z := 0 } (by norm_num [bottomBox, Globals.init]),
   ((origin_deltas (fun _ => 3 / 5) (fun _ => 4 / 5) bottomBox).2.2.2.2.2.2 (1 / 2) hs).2.2
     (by norm_num [bottomBox, Globals.init]) (by norm_num [bottomBox, Globals.init])
     { x := 2, y := -1, z := 0 } (by norm_num [bottomBox, Globals.init])
     (by norm_num [bottomBox, Globals.init]),
   (origin_deltas (fun _ => 3 / 5) (fun _ => 4 / 5) (Globals.init [])).2.2.2.2.2.1
     (by norm_num [bottomBox, Globals.init])⟩

/-! ## The two passes -/

theorem faceLoop_count {α : Type} (fuel : Nat) (fv : FaceVars) (s : Globals α) :
    faceLoop fuel true fv s =
      (faceScan fuel fv s.ptr).map (fun x =>
        (x.1, { s with ptr := x.2.1, objnfaceidxs := s.objnfaceidxs + x.2.2.length })) := by
  induction fuel generalizing fv s with
  | zero => rfl
  | succ n ih =>
    unfold faceLoop faceScan
    dsimp only
    by_cases hc : (cur (faceRef fv s.ptr).2 != NUL && cur (faceRef fv s.ptr).2 != '\r' &&
        cur (faceRef fv s.ptr).2 != '\n') = true
    · simp only [hc, if_true, ih, faceStore]
      cases faceScan n (faceRef fv s.ptr).1 (faceRef fv s.ptr).2 with
      | none => rfl
      | some x =>
        simp only [Option.map_some', Option.some.injEq, Prod.mk.injEq, true_and,
          List.length_cons]
        congr 1
        omega
    · simp only [hc, Bool.false_eq_true, if_false, faceStore, Option.map_some', if_true,
        List.length_singleton]

theorem faceLoop_fill {α : Type} (fuel : Nat) (fv : FaceVars) (t : Globals α) :
    faceLoop fuel false fv t =
      (faceScan fuel fv t.ptr).map (fun x =>
        (x.1, { t with ptr := x.2.1,
                       objfaceidx := t.objfaceidx ++ x.2.2.map (toRef t.seggroup),
                       faceidxpos := t.faceidxpos + x.2.2.length })) := by
  induction fuel generalizing fv t with
  | zero => rfl
  | succ n ih =>
    unfold faceLoop faceScan
    dsimp only
    by_cases hc : (cur (faceRef fv t.ptr).2 != NUL && cur (faceRef fv t.ptr).2 != '\r' &&
        cur (faceRef fv t.ptr).2 != '\n') = true
    · simp only [hc, if_true, ih, faceStore, Bool.false_eq_true, if_false]
      cases faceScan n (faceRef fv t.ptr).1 (faceRef fv t.ptr).2 with
      | none => rfl
      | some x =>
        simp only [Option.map_some', Option.some.injEq, Prod.mk.injEq, true_and,
          List.length_cons, List.map_cons, List.append_assoc, List.singleton_append, toRef]
        congr 1
        omega
    · simp [hc, faceStore, toRef]

theorem skipToEol_skipSpaces (p : List Char) : skipToEol (skipSpaces p) = skipToEol p := by
  induction p with
  | nil => rfl
  | cons c cs ih =>
    by_cases h : (c != NUL && c == ' ') = true
    · have hc : (c != NUL && c != '\n') = true := by
        simp only [Bool.and_eq_true, bne_iff_ne, ne_eq, beq_iff_eq] at h ⊢
        obtain ⟨h1, rfl⟩ := h
        exact ⟨h1, by decide⟩
      simp only [skipSpaces, h, if_true, ih, skipToEol, hc]
    · simp only [skipSpaces, h, Bool.false_eq_true, if_false]

theorem skipToEol_skipFloat (p : List Char) : skipToEol (skipFloat p) = skipToEol p := by
  induction p with
  | nil => rfl
  | cons c cs ih =>
    by_cases h : (c != NUL && isFloatC c) = true
    · have hc : (c != NUL && c != '\n') = true := by
        simp only [Bool.and_eq_true, bne_iff_ne, ne_eq] at h ⊢
        refine ⟨h.1, ?_⟩
        rintro rfl
        exact absurd h.2 (by decide)
      simp only [skipFloat, h, if_true, ih, skipToEol, hc]
    · simp only [skipFloat, h, Bool.false_eq_true, if_false]

theorem nextline_getfloat {α : Type} (atof : List Char → α) (p : List Char) :
    nextline (getfloat atof p).2 = nextline p := by
  simp only [nextline, getfloat, skipToEol_skipFloat, skipToEol_skipSpaces]

theorem parseLine_sim {α : Type} [LinearOrderedField α] (atof : List Char → α) (fuel : Nat)
    (s t : Globals α) (h : s.ptr = t.ptr) (r : Bool) (s1 : Globals α)
    (hc : parseLine atof fuel true s = some (r, s1)) :
    ∃ t1, parseLine atof fuel false t = some (r, t1) ∧ (r = true → Agree s s1 t t1) := by
  rw [parseLine_eq] at hc ⊢
  rw [← h]
  generalize skipSpaces s.ptr = q at hc ⊢
  cases hk : lineKind q with
  | skip p =>
    rw [hk] at hc
    simp only [lineEffect, Option.some.injEq, Prod.mk.injEq] at hc ⊢
    obtain ⟨rfl, rfl⟩ := hc
    exact ⟨_, ⟨rfl, rfl⟩, fun _ => by simp [Agree]⟩
  | vn p =>
    rw [hk] at hc
    simp only [lineEffect, if_true, Bool.false_eq_true, if_false, Option.some.injEq,
      Prod.mk.injEq] at hc ⊢
    obtain ⟨rfl, rfl⟩ := hc
    refine ⟨_, ⟨rfl, rfl⟩, fun _ => ?_⟩
    simp only [Agree, nextline_getfloat, List.length_append, List.length_cons,
      List.length_nil, true_and]
    repeat' apply And.intro
    all_goals first | trivial | omega
  | vt p =>
    rw [hk] at hc
    simp only [lineEffect, if_true, Bool.false_eq_true, if_false, Option.some.injEq,
      Prod.mk.injEq] at hc ⊢
    obtain ⟨rfl, rfl⟩ := hc
    refine ⟨_, ⟨rfl, rfl⟩, fun _ => ?_⟩
    simp only [Agree, nextline_getfloat, List.length_append, List.length_cons,
      List.length_nil, true_and]
    repeat' apply And.intro
    all_goals first | trivial | omega
  | v p =>
    rw [hk] at hc
    simp only [lineEffect, if_true, Bool.false_eq_true, if_false, Option.some.injEq,
      Prod.mk.injEq] at hc ⊢
    obtain ⟨rfl, rfl⟩ := hc
    refine ⟨_, ⟨rfl, rfl⟩, fun _ => ?_⟩
    simp only [Agree, capture, nextline_getfloat, List.length_append, List.length_cons,
      List.length_nil, true_and]
    repeat' apply And.intro
    all_goals first | trivial | omega
  | f p =>
    rw [hk] at hc
    simp only [lineEffect, faceLoop_count, faceLoop_fill, if_true, Bool.false_eq_true,
      if_false] at hc ⊢
    cases hs : faceScan fuel { vpi := 0, vti := 0, vni := 0, idxcnt := 0 } p with
    | none =>
      rw [hs] at hc
      simp at hc
    | some x =>
      rw [hs] at hc
      simp only [Option.map_some', Option.some.injEq, Prod.mk.injEq] at hc ⊢
      obtain ⟨rfl, rfl⟩ := hc
      refine ⟨_, ⟨rfl, rfl⟩, fun _ => ?_⟩
      simp only [Agree, List.length_append, List.length_cons, List.length_nil,
        List.length_map, true_and]
      repeat' apply And.intro
      all_goals first | trivial | omega
  | s p =>
    rw [hk] at hc
    simp only [lineEffect, Option.some.injEq, Prod.mk.injEq] at hc ⊢
    obtain ⟨rfl, rfl⟩ := hc
    exact ⟨_, ⟨rfl, rfl⟩, fun _ => by simp [Agree]⟩
  | unknown =>
    rw [hk] at hc
    simp only [lineEffect, Option.some.injEq, Prod.mk.injEq] at hc ⊢
    obtain ⟨rfl, rfl⟩ := hc
    exact ⟨_, ⟨rfl, rfl⟩, fun hf => by cases hf⟩
  | eof =>
    rw [hk] at hc
    simp only [lineEffect, Option.some.injEq, Prod.mk.injEq] at hc ⊢
    obtain ⟨rfl, rfl⟩ := hc
    exact ⟨_, ⟨rfl, rfl⟩, fun _ => by simp [Agree]⟩

theorem Agree.refl {α : Type} (s t : Globals α) (h : s.ptr = t.ptr) : Agree s s t t :=
  ⟨h.symm, rfl, rfl, rfl, rfl, rfl, rfl, rfl⟩

theorem Agree.trans {α : Type} {s s1 s2 t t1 t2 : Globals α} (h1 : Agree s s1 t t1)
    (h2 : Agree s1 s2 t1 t2) : Agree s s2 t t2 := by
  obtain ⟨a1, a2, a3, a4, a5, a6, a7, a8⟩ := h1
  obtain ⟨b1, b2, b3, b4, b5, b6, b7, b8⟩ := h2
  refine ⟨b1, b2.trans a2, ?_, ?_, ?_, ?_, ?_, ?_⟩ <;> omega

theorem parseLoop_sim {α : Type} [LinearOrderedField α] (atof : List Char → α) (fuel : Nat)
    (s t : Globals α) (h : s.ptr = t.ptr) (r : Bool) (s1 : Globals α)
    (hc : parseLoop atof fuel true s = some (r, s1)) :
    ∃ t1, parseLoop atof fuel false t = some (r, t1) ∧ (r = true → Agree s s1 t t1) := by
  induction fuel generalizing s t with
  | zero => simp [parseLoop] at hc
  | succ n ih =>
    unfold parseLoop at hc ⊢
    rw [← h]
    by_cases hcur : (cur s.ptr != NUL) = true
    · simp only [hcur, if_true] at hc ⊢
      cases hpl : parseLine atof n true s with
      | none => simp [hpl] at hc
      | some x =>
        obtain ⟨r1, s2⟩ := x
        obtain ⟨t2, ht2, hag⟩ := parseLine_sim atof n s t h r1 s2 hpl
        rw [hpl] at hc
        rw [ht2]
        cases r1 with
        | false =>
          simp only [Option.some.injEq, Prod.mk.injEq] at hc
          obtain ⟨rfl, rfl⟩ := hc
          exact ⟨t2, rfl, fun hf => by cases hf⟩
        | true =>
          simp only at hc ⊢
          have hag1 := hag rfl
          obtain ⟨t1, ht1, hag2⟩ := ih s2 t2 hag1.1.symm hc
          exact ⟨t1, ht1, fun hr => hag1.trans (hag2 hr)⟩
    · simp only [hcur, Bool.false_eq_true, if_false, Option.some.injEq, Prod.mk.injEq] at hc ⊢
      obtain ⟨rfl, rfl⟩ := hc
      exact ⟨t, ⟨rfl, rfl⟩, fun _ => Agree.refl s t h⟩

/-- C1: when the counting pass, started at the beginning of the buffer with all five
counters 0, returns success, the fill pass run next (with the same fuel) returns
success too, and it has written `3 * objnvertpos` floats of positions, `3 * objnvertnorm`
of normals, `3 * objnverttex` of texture coordinates, `objnfaces` face starts,
`objnfaces` face lengths and `objnfaceidxs` face-vertex references. -/
theorem count_fill_agree {α : Type} [LinearOrderedField α] (atof : List Char → α)
    (fuel : Nat) (st st1 : Globals α) (hstart : st.ptr = st.contents)
    (hpos : st.objnvertpos = 0) (hnorm : st.objnvertnorm = 0) (htex : st.objnverttex = 0)
    (hfaces : st.objnfaces = 0) (hidxs : st.objnfaceidxs = 0)
    (hcount : parseobj atof fuel true st = some (true, st1)) :
    ∃ st2, parseobj atof fuel false st1 = some (true, st2) ∧
      st2.objvertpos.length = 3 * st1.objnvertpos ∧
      st2.objvertnorm.length = 3 * st1.objnvertnorm ∧
      st2.objverttex.length = 3 * st1.objnverttex ∧
      st2.objfacepos.length = st1.objnfaces ∧
      st2.objfacelen.length = st1.objnfaces ∧
      st2.objfaceidx.length = st1.objnfaceidxs := by
  unfold parseobj at hcount
  cases hl : parseLoop atof fuel true { allocate true st with faceidxpos := 0 } with
  | none => simp [hl] at hcount
  | some x =>
    obtain ⟨r, s1⟩ := x
    rw [hl] at hcount
    cases r with
    | false => simp at hcount
    | true =>
      simp only [if_true, Option.some.injEq, Prod.mk.injEq, true_and] at hcount
      subst hcount
      obtain ⟨_, _, hself⟩ := parseLoop_sim atof fuel _ _ rfl true s1 hl
      have hcont : s1.contents = st.contents := (hself rfl).2.1
      obtain ⟨t1, ht1, hag⟩ := parseLoop_sim atof fuel _
        { allocate false { s1 with ptr := s1.contents } with faceidxpos := 0 }
        (by simp [allocate, hcont, hstart]) true s1 hl
      obtain ⟨_, _, a3, a4, a5, a6, a7, a8⟩ := hag rfl
      refine ⟨derive { t1 with ptr := t1.contents }, ?_, ?_⟩
      · simp only [parseobj, ht1, Bool.false_eq_true, if_false]
      · simp only [allocate, Bool.false_eq_true, if_false, if_true, List.length_nil, hpos,
          hnorm, htex, hfaces, hidxs] at a3 a4 a5 a6 a7 a8
        simp only [derive]
        refine ⟨?_, ?_, ?_, ?_, ?_, ?_⟩ <;> omega

/-- Witness of C1: three positions and one triangle, with the decimal `atof`. -/
theorem count_fill_agree_witness :
    ∃ st2, parseobj atofDec 10 false countedTriangle = some (true, st2) ∧
      st2.objvertpos.length = 3 * countedTriangle.objnvertpos ∧
      st2.objvertnorm.length = 3 * countedTriangle.objnvertnorm ∧
      st2.objverttex.length = 3 * countedTriangle.objnverttex ∧
      st2.objfacepos.length = countedTriangle.objnfaces ∧
      st2.objfacelen.length = countedTriangle.objnfaces ∧
      st2.objfaceidx.length = countedTriangle.objnfaceidxs :=
  count_fill_agree atofDec 10 (Globals.init oneTriangle) countedTriangle rfl rfl rfl rfl rfl
    rfl (by rfl)

/-- C8, the failing input: on the buffer `v 1 2 3` both passes succeed, the fill pass
stores the one position `(1, 2, 3)`, and yet it leaves `minx = miny = minz = 0`, the
initial value of the three minimums, which is no coordinate of a parsed position. -/
theorem bounding_box_keeps_zero :
    ((parseobj atofDec 3 true (Globals.init onePosition)).bind
      (fun r => parseobj atofDec 3 false r.2)).map (fun r => (r.1, r.2.objvertpos)) =
        some (true, [1, 2, 3]) ∧
    ((parseobj atofDec 3 true (Globals.init onePosition)).bind
      (fun r => parseobj atofDec 3 false r.2)).map (fun r => (r.2.minx, r.2.miny, r.2.minz)) =
        some (0, 0, 0) ∧
    ((parseobj atofDec 3 true (Globals.init onePosition)).bind
      (fun r => parseobj atofDec 3 false r.2)).map (fun r => (r.2.maxx, r.2.maxy, r.2.maxz)) =
        some (1, 2, 3) := by
  refine ⟨?_, ?_, ?_⟩ <;> decide

/-- C10, the failing input: on a buffer whose only line is unknown the counting pass
returns 0, and the conversion goes on all the same: it runs the fill pass and the
emitter, writes a document (with no triangle and no position) and returns the exit
code 0. -/
theorem parse_failure_not_fatal :
    (parseobj atofDec 2 true (Globals.init unknownLine)).map Prod.fst = some false ∧
    (convert atofDec (fun _ => 1) (fun _ => 0) 2 (Globals.init unknownLine)).map Prod.fst =
      some 0 ∧
    (convert atofDec (fun _ => 1) (fun _ => 0) 2 (Globals.init unknownLine)).map
      (fun r => (r.2.indices, r.2.positions)) = some ([], []) := by
  refine ⟨?_, ?_, ?_⟩ <;> decide

/-! ## Where the cursor can stand -/

theorem skipSpaces_suffix (p : List Char) : skipSpaces p <:+ p := by
  induction p with
  | nil => exact List.suffix_refl _
  | cons c cs ih =>
    unfold skipSpaces
    split
    · exact ih.trans (List.suffix_cons c cs)
    · exact List.suffix_refl _

theorem skipFloat_suffix (p : List Char) : skipFloat p <:+ p := by
  induction p with
  | nil => exact List.suffix_refl _
  | cons c cs ih =>
    unfold skipFloat
    split
    · exact ih.trans (List.suffix_cons c cs)
    · exact List.suffix_refl _

theorem getfloat_suffix {α : Type} (atof : List Char → α) (p : List Char) :
    (getfloat atof p).2 <:+ p :=
  (skipFloat_suffix _).trans (skipSpaces_suffix p)

/-- A rejected line that the scan passes over is not reported: after the empty first
line of `blankThenUnknown` the branch for LF calls `nextline` on the text behind the line
feed, and both passes return success. -/
theorem rejected_line_after_blank :
    rejected (skipSpaces (blankThenUnknown.drop 1)) = true ∧
    (parseobj atofDec 3 true (Globals.init blankThenUnknown)).map Prod.fst = some true ∧
    ((parseobj atofDec 3 true (Globals.init blankThenUnknown)).bind
      (fun r => parseobj atofDec 3 false r.2)).map Prod.fst = some true := by
  refine ⟨?_, ?_, ?_⟩ <;> decide

/-- The lines the loop comes to on `v 1 2 3`, `xyzzy`: both lines, the second one
rejected; both passes return failure.  On `blankThenUnknown` the loop comes to the empty
line alone. -/
theorem rejected_second_line :
    reached positionThenUnknown = [positionThenUnknown, "xyzzy\n".toList] ∧
    rejected "xyzzy\n".toList = true ∧
    (parseobj atofDec 3 true (Globals.init positionThenUnknown)).map Prod.fst = some false ∧
    (parseobj atofDec 3 false (Globals.init positionThenUnknown)).map Prod.fst =
      some false ∧
    reached blankThenUnknown = [blankThenUnknown] := by
  refine ⟨?_, ?_, ?_, ?_, ?_⟩ <;> decide

theorem faceScan_stuck (fuel : Nat) (fv : FaceVars) : faceScan fuel fv ['a', '\n'] = none := by
  induction fuel generalizing fv with
  | zero => rfl
  | succ n ih =>
    have h : faceRef fv ['a', '\n'] =
        ({ vpi := 0, vti := fv.vti, vni := fv.vni, idxcnt := fv.idxcnt + 1 }, ['a', '\n']) :=
      rfl
    have hc : (cur ['a', '\n'] != NUL && cur ['a', '\n'] != '\r' && cur ['a', '\n'] != '\n')
        = true := by decide
    unfold faceScan
    simp only [h, hc, if_true, ih]

theorem faceScan_stuckFace (fuel : Nat) :
    faceScan fuel { vpi := 0, vti := 0, vni := 0, idxcnt := 0 } [' ', '1', ' ', 'a', '\n'] =
      none := by
  cases fuel with
  | zero => rfl
  | succ n =>
    have h : faceRef { vpi := 0, vti := 0, vni := 0, idxcnt := 0 } [' ', '1', ' ', 'a', '\n'] =
        ({ vpi := 1, vti := 0, vni := 0, idxcnt := 1 }, ['a', '\n']) := by decide
    have hc : (cur ['a', '\n'] != NUL && cur ['a', '\n'] != '\r' && cur ['a', '\n'] != '\n')
        = true := by decide
    unfold faceScan
    simp only [h, hc, if_true, faceScan_stuck]

/-- C15, the failing input: on the buffer `f 1 a` neither pass returns, whatever the
fuel: after the reference `1` the cursor stands on the letter `a`, `getint` reads 0
without moving the cursor, and the `do ... while` loop of the face branch repeats for
ever. -/
theorem face_loop_never_ends :
    ∀ (fuel : Nat) (cnt : Bool), parseobj atofDec fuel cnt (Globals.init stuckFace) = none := by
  intro fuel cnt
  have hk : lineKind (skipSpaces stuckFace) = .f [' ', '1', ' ', 'a', '\n'] := by decide
  have hcur : (cur stuckFace != NUL) = true := by decide
  have hl : parseLoop atofDec fuel cnt
      { allocate cnt (Globals.init stuckFace) with faceidxpos := 0 } = none := by
    cases fuel with
    | zero => rfl
    | succ n =>
      have hptr : ({ allocate cnt (Globals.init stuckFace) with faceidxpos := 0 } :
          Globals ℚ).ptr = stuckFace := by
        cases cnt <;> rfl
      unfold parseLoop
      rw [parseLine_eq, hptr, hk]
      simp only [hcur, if_true, lineEffect]
      cases cnt
      · simp only [faceLoop_fill, faceScan_stuckFace, Option.map_none']
      · simp only [faceLoop_count, faceScan_stuckFace, Option.map_none']
  unfold parseobj
  rw [hl]

/-! ## What the passes keep -/

theorem faceRef_idxcnt (fv : FaceVars) (p : List Char) :
    (faceRef fv p).1.idxcnt = fv.idxcnt + 1 := by
  unfold faceRef
  dsimp only
  split_ifs <;> rfl

theorem faceScan_idxcnt (fuel : Nat) (fv : FaceVars) (p : List Char)
    (x : FaceVars × List Char × List FaceVars) (h : faceScan fuel fv p = some x) :
    x.1.idxcnt = fv.idxcnt + x.2.2.length ∧ 1 ≤ x.2.2.length := by
  induction fuel generalizing fv p x with
  | zero => simp [faceScan] at h
  | succ n ih =>
    unfold faceScan at h
    dsimp only at h
    split at h
    · cases hs : faceScan n (faceRef fv p).1 (faceRef fv p).2 with
      | none => simp [hs] at h
      | some y =>
        rw [hs] at h
        simp only [Option.some.injEq] at h
        subst h
        obtain ⟨h1, _⟩ := ih _ _ y hs
        rw [faceRef_idxcnt] at h1
        simp only [List.length_cons]
        constructor <;> omega
    · simp only [Option.some.injEq] at h
      subst h
      simp only [List.length_singleton, faceRef_idxcnt]
      exact ⟨trivial, le_refl 1⟩

theorem sameConfig_refl {α : Type} (s : Globals α) : SameConfig s s :=
  ⟨rfl, rfl, rfl, rfl, rfl, rfl, rfl, rfl, rfl⟩

theorem sameConfig_trans {α : Type} {s s1 s2 : Globals α} (h1 : SameConfig s s1)
    (h2 : SameConfig s1 s2) : SameConfig s s2 := by
  obtain ⟨a1, a2, a3, a4, a5, a6, a7, a8, a9⟩ := h1
  obtain ⟨b1, b2, b3, b4, b5, b6, b7, b8, b9⟩ := h2
  exact ⟨b1.trans a1, b2.trans a2, b3.trans a3, b4.trans a4, b5.trans a5, b6.trans a6,
    b7.trans a7, b8.trans a8, b9.trans a9⟩

theorem sameCounts_refl {α : Type} (s : Globals α) : SameCounts s s :=
  ⟨rfl, rfl, rfl, rfl, rfl⟩

theorem sameCounts_trans {α : Type} {s s1 s2 : Globals α} (h1 : SameCounts s s1)
    (h2 : SameCounts s1 s2) : SameCounts s s2 := by
  obtain ⟨a1, a2, a3, a4, a5⟩ := h1
  obtain ⟨b1, b2, b3, b4, b5⟩ := h2
  exact ⟨b1.trans a1, b2.trans a2, b3.trans a3, b4.trans a4, b5.trans a5⟩

theorem parseLine_config {α : Type} [LinearOrderedField α] (atof : List Char → α)
    (fuel : Nat) (cnt : Bool) (s s1 : Globals α) (r : Bool)
    (h : parseLine atof fuel cnt s = some (r, s1)) : SameConfig s s1 := by
  rw [parseLine_eq] at h
  generalize skipSpaces s.ptr = q at h
  cases hk : lineKind q with
  | skip p =>
    rw [hk] at h
    simp only [lineEffect, Option.some.injEq, Prod.mk.injEq] at h
    obtain ⟨_, rfl⟩ := h
    exact sameConfig_refl s
  | vn p =>
    rw [hk] at h
    cases cnt
    all_goals
      simp only [lineEffect, if_true, Bool.false_eq_true, if_false, Option.some.injEq,
        Prod.mk.injEq] at h
      obtain ⟨_, rfl⟩ := h
      exact sameConfig_refl s
  | vt p =>
    rw [hk] at h
    cases cnt
    all_goals
      simp only [lineEffect, if_true, Bool.false_eq_true, if_false, Option.some.injEq,
        Prod.mk.injEq] at h
      obtain ⟨_, rfl⟩ := h
      exact sameConfig_refl s
  | v p =>
    rw [hk] at h
    cases cnt
    all_goals
      simp only [lineEffect, if_true, Bool.false_eq_true, if_false, Option.some.injEq,
        Prod.mk.injEq] at h
      obtain ⟨_, rfl⟩ := h
      exact sameConfig_refl s
  | f p =>
    rw [hk] at h
    cases cnt
    · simp only [lineEffect, faceLoop_fill, Bool.false_eq_true, if_false] at h
      cases hs : faceScan fuel { vpi := 0, vti := 0, vni := 0, idxcnt := 0 } p with
      | none => simp [hs] at h
      | some x =>
        rw [hs] at h
        simp only [Option.map_some', Option.some.injEq, Prod.mk.injEq] at h
        obtain ⟨_, rfl⟩ := h
        exact sameConfig_refl s
    · simp only [lineEffect, faceLoop_count, if_true] at h
      cases hs : faceScan fuel { vpi := 0, vti := 0, vni := 0, idxcnt := 0 } p with
      | none => simp [hs] at h
      | some x =>
        rw [hs] at h
        simp only [Option.map_some', Option.some.injEq, Prod.mk.injEq] at h
        obtain ⟨_, rfl⟩ := h
        exact sameConfig_refl s
  | s p =>
    rw [hk] at h
    simp only [lineEffect, Option.some.injEq, Prod.mk.injEq] at h
    obtain ⟨_, rfl⟩ := h
    exact sameConfig_refl s
  | unknown =>
    rw [hk] at h
    simp only [lineEffect, Option.some.injEq, Prod.mk.injEq] at h
    obtain ⟨_, rfl⟩ := h
    exact sameConfig_refl s
  | eof =>
    rw [hk] at h
    simp only [lineEffect, Option.some.injEq, Prod.mk.injEq] at h
    obtain ⟨_, rfl⟩ := h
    exact sameConfig_refl s

theorem parseLoop_config {α : Type} [LinearOrderedField α] (atof : List Char → α)
    (fuel : Nat) (cnt : Bool) (s s1 : Globals α) (r : Bool)
    (h : parseLoop atof fuel cnt s = some (r, s1)) : SameConfig s s1 := by
  induction fuel generalizing s with
  | zero => simp [parseLoop] at h
  | succ n ih =>
    unfold parseLoop at h
    split at h
    · cases hpl : parseLine atof n cnt s with
      | none => simp [hpl] at h
      | some x =>
        obtain ⟨r1, s2⟩ := x
        rw [hpl] at h
        have h1 := parseLine_config atof n cnt s s2 r1 hpl
        cases r1 with
        | false =>
          simp only [Option.some.injEq, Prod.mk.injEq] at h
          obtain ⟨_, rfl⟩ := h
          exact h1
        | true =>
          simp only at h
          exact sameConfig_trans h1 (ih s2 h)
    · simp only [Option.some.injEq, Prod.mk.injEq] at h
      obtain ⟨_, rfl⟩ := h
      exact sameConfig_refl s

theorem faces_push (P L : List Nat) (n0 n1 a b : Nat) (hlen : P.length = L.length)
    (hold : ∀ (i pos len : Nat), P[i]? = some pos → L[i]? = some len →
      1 ≤ len ∧ pos + len ≤ n0)
    (hn : n0 ≤ n1) (hb : 1 ≤ b) (hab : a + b ≤ n1) :
    ∀ (i pos len : Nat), (P ++ [a])[i]? = some pos → (L ++ [b])[i]? = some len →
      1 ≤ len ∧ pos + len ≤ n1 := by
  intro i pos len hp hl
  by_cases hi : i < P.length
  · rw [List.getElem?_append_left hi] at hp
    rw [List.getElem?_append_left (hlen ▸ hi)] at hl
    obtain ⟨h1, h2⟩ := hold i pos len hp hl
    exact ⟨h1, le_trans h2 hn⟩
  · have hi1 : P.length ≤ i := not_lt.1 hi
    rw [List.getElem?_append_right hi1] at hp
    rw [List.getElem?_append_right (hlen ▸ hi1)] at hl
    cases hd : i - P.length with
    | zero =>
      rw [hd] at hp
      rw [← hlen, hd] at hl
      simp only [List.getElem?_cons_zero, Option.some.injEq] at hp hl
      subst hp hl
      exact ⟨hb, hab⟩
    | succ k =>
      rw [hd] at hp
      simp at hp

theorem parseLine_fill {α : Type} [LinearOrderedField α] (atof : List Char → α)
    (fuel : Nat) (s s1 : Globals α) (h : parseLine atof fuel false s = some (true, s1)) :
    SameCounts s s1 ∧ (FacesOK s → FacesOK s1) := by
  rw [parseLine_eq] at h
  generalize skipSpaces s.ptr = q at h
  cases hk : lineKind q with
  | skip p =>
    rw [hk] at h
    simp only [lineEffect, Option.some.injEq, Prod.mk.injEq, true_and] at h
    subst h
    exact ⟨sameCounts_refl s, fun hf => hf⟩
  | vn p =>
    rw [hk] at h
    simp only [lineEffect, Bool.false_eq_true, if_false, Option.some.injEq, Prod.mk.injEq,
      true_and] at h
    subst h
    exact ⟨sameCounts_refl s, fun hf => hf⟩
  | vt p =>
    rw [hk] at h
    simp only [lineEffect, Bool.false_eq_true, if_false, Option.some.injEq, Prod.mk.injEq,
      true_and] at h
    subst h
    exact ⟨sameCounts_refl s, fun hf => hf⟩
  | v p =>
    rw [hk] at h
    simp only [lineEffect, Bool.false_eq_true, if_false, Option.some.injEq, Prod.mk.injEq,
      true_and] at h
    subst h
    exact ⟨sameCounts_refl s, fun hf => hf⟩
  | f p =>
    rw [hk] at h
    simp only [lineEffect, faceLoop_fill, Bool.false_eq_true, if_false] at h
    cases hs : faceScan fuel { vpi := 0, vti := 0, vni := 0, idxcnt := 0 } p with
    | none => simp [hs] at h
    | some x =>
      rw [hs] at h
      simp only [Option.map_some', Option.some.injEq, Prod.mk.injEq, true_and] at h
      subst h
      obtain ⟨hx1, hx2⟩ := faceScan_idxcnt _ _ _ x hs
      simp only [Nat.zero_add] at hx1
      refine ⟨⟨rfl, rfl, rfl, rfl, rfl⟩, ?_⟩
      rintro ⟨f1, f2, f3⟩
      refine ⟨?_, ?_, ?_⟩
      · simp only [List.length_append, List.length_map, f1]
      · simp only [List.length_append, List.length_singleton, f2]
      · simp only [List.length_append, List.length_map]
        exact faces_push s.objfacepos s.objfacelen s.objfaceidx.length _ s.faceidxpos
          x.1.idxcnt f2 f3 (Nat.le_add_right _ _) (by omega) (by omega)
  | s p =>
    rw [hk] at h
    simp only [lineEffect, Option.some.injEq, Prod.mk.injEq, true_and] at h
    subst h
    exact ⟨sameCounts_refl s, fun hf => hf⟩
  | unknown =>
    rw [hk] at h
    simp [lineEffect] at h
  | eof =>
    rw [hk] at h
    simp only [lineEffect, Option.some.injEq, Prod.mk.injEq, true_and] at h
    subst h
    exact ⟨sameCounts_refl s, fun hf => hf⟩

theorem parseLoop_fill {α : Type} [LinearOrderedField α] (atof : List Char → α)
    (fuel : Nat) (s s1 : Globals α) (h : parseLoop atof fuel false s = some (true, s1)) :
    SameCounts s s1 ∧ (FacesOK s → FacesOK s1) := by
  induction fuel generalizing s with
  | zero => simp [parseLoop] at h
  | succ n ih =>
    unfold parseLoop at h
    split at h
    · cases hpl : parseLine atof n false s with
      | none => simp [hpl] at h
      | some x =>
        obtain ⟨r1, s2⟩ := x
        rw [hpl] at h
        cases r1 with
        | false => simp at h
        | true =>
          simp only at h
          obtain ⟨a1, a2⟩ := parseLine_fill atof n s s2 hpl
          obtain ⟨b1, b2⟩ := ih s2 h
          exact ⟨sameCounts_trans a1 b1, fun hf => b2 (a2 hf)⟩
    · simp only [Option.some.injEq, Prod.mk.injEq, true_and] at h
      subst h
      exact ⟨sameCounts_refl s, fun hf => hf⟩

theorem parsed_layout {α : Type} [LinearOrderedField α] (atof : List Char → α)
    (fuel : Nat) (st g : Globals α) (h : Parsed atof fuel st g) :
    FacesOK g ∧ g.objfacepos.length = g.objnfaces ∧
      g.objfaceidx.length = g.objnfaceidxs ∧ g.objvertpos.length = 3 * g.objnvertpos := by
  obtain ⟨hstart, hvpos, _, _, hfaces, hidxs, st1, hcount, hfill⟩ := h
  unfold parseobj at hcount
  cases hl : parseLoop atof fuel true { allocate true st with faceidxpos := 0 } with
  | none => simp [hl] at hcount
  | some x =>
    obtain ⟨r, s1⟩ := x
    rw [hl] at hcount
    cases r with
    | false => simp at hcount
    | true =>
      simp only [if_true, Option.some.injEq, Prod.mk.injEq, true_and] at hcount
      subst hcount
      obtain ⟨_, _, hself⟩ := parseLoop_sim atof fuel _ _ rfl true s1 hl
      have hcont : s1.contents = st.contents := (hself rfl).2.1
      obtain ⟨t1, ht1, hag⟩ := parseLoop_sim atof fuel _
        { allocate false { s1 with ptr := s1.contents } with faceidxpos := 0 }
        (by simp [allocate, hcont, hstart]) true s1 hl
      obtain ⟨_, _, a3, _, _, a6, _, a8⟩ := hag rfl
      obtain ⟨hc, hf⟩ := parseLoop_fill atof fuel _ t1 ht1
      have hok : FacesOK t1 := hf ⟨rfl, rfl, fun i pos len hp _ => by simp [allocate] at hp⟩
      unfold parseobj at hfill
      rw [ht1] at hfill
      simp only [Bool.false_eq_true, if_false, Option.some.injEq, Prod.mk.injEq,
        true_and] at hfill
      subst hfill
      obtain ⟨c1, _, _, c4, c5⟩ := hc
      simp only [allocate, Bool.false_eq_true, if_false, if_true, List.length_nil, hfaces,
        hidxs, hvpos] at a3 a6 a8 c1 c4 c5
      refine ⟨hok, ?_, ?_, ?_⟩
      · simp only [derive]
        omega
      · simp only [derive]
        omega
      · simp only [derive]
        omega

theorem parsed_config {α : Type} [LinearOrderedField α] (atof : List Char → α)
    (fuel : Nat) (st g : Globals α) (h : Parsed atof fuel st g) (hh : st.height ≤ 0)
    (hx : st.xorigin < 0) (hy : st.yorigin < 0) (hz : st.zorigin < 0) :
    SameConfig st g := by
  obtain ⟨_, _, _, _, _, _, st1, hcount, hfill⟩ := h
  unfold parseobj at hcount
  cases hl : parseLoop atof fuel true { allocate true st with faceidxpos := 0 } with
  | none => simp [hl] at hcount
  | some x =>
    obtain ⟨r, s1⟩ := x
    rw [hl] at hcount
    cases r with
    | false => simp at hcount
    | true =>
      simp only [if_true, Option.some.injEq, Prod.mk.injEq, true_and] at hcount
      subst hcount
      have c0 := parseLoop_config atof fuel true _ s1 true hl
      have c1 : SameConfig st s1 := c0
      unfold parseobj at hfill
      cases hl2 : parseLoop atof fuel false
          { allocate false { s1 with ptr := s1.contents } with faceidxpos := 0 } with
      | none => simp [hl2] at hfill
      | some y =>
        obtain ⟨r2, t1⟩ := y
        rw [hl2] at hfill
        cases r2 with
        | false => simp at hfill
        | true =>
          simp only [Bool.false_eq_true, if_false, Option.some.injEq, Prod.mk.injEq,
            true_and] at hfill
          subst hfill
          have c3 := parseLoop_config atof fuel false _ t1 true hl2
          have c2 : SameConfig s1 t1 := c3
          obtain ⟨a1, a2, a3, a4, a5, a6, a7, a8, a9⟩ := c1
          obtain ⟨b1, b2, b3, b4, b5, b6, b7, b8, b9⟩ := c2
          have e2 : t1.xorigin = st.xorigin := b2.trans a2
          have e3 : t1.yorigin = st.yorigin := b3.trans a3
          have e4 : t1.zorigin = st.zorigin := b4.trans a4
          have e5 : t1.height = st.height := b5.trans a5
          refine ⟨b1.trans a1, e2, e3, e4, e5, ?_, ?_, ?_, ?_⟩
          · simp only [derive, e2, not_le.2 hx, if_false]
            exact b6.trans a6
          · simp only [derive, e3, not_le.2 hy, if_false]
            exact b7.trans a7
          · simp only [derive, e4, not_le.2 hz, if_false]
            exact b8.trans a8
          · simp only [derive, e5, not_lt.2 hh, if_false]
            exact b9.trans a9

/-! ## The index block -/

theorem mapindex_lt (t : List objfaceidxstr) (o : objfaceidxstr) :
    (mapindex t o).1 < (mapindex t o).2.length := by
  rw [mapindex_fst]
  exact List.indexOf_lt_length.2 (mapindex_mem t o)

theorem mapindex_sub (t : List objfaceidxstr) (o e : objfaceidxstr)
    (h : e ∈ (mapindex t o).2) : e ∈ t ∨ e = o :=
  (mapindex_mem_iff t o e).1 h

theorem triLoop_sound (F : List objfaceidxstr) (v0 : Nat) (n k : Nat)
    (t : List objfaceidxstr) (tris : List (Nat × Nat × Nat)) (m : List objfaceidxstr)
    (h : triLoop F v0 n k t = some (tris, m)) :
    t <+: m ∧ (∀ e ∈ m, e ∈ t ∨ e ∈ F) ∧ (t.Nodup → m.Nodup) ∧
      (v0 < t.length → ∀ x ∈ tris, x.1 < m.length ∧ x.2.1 < m.length ∧ x.2.2 < m.length) := by
  induction n generalizing k t tris m with
  | zero =>
    simp only [triLoop, Option.some.injEq, Prod.mk.injEq] at h
    obtain ⟨rfl, rfl⟩ := h
    exact ⟨List.prefix_refl _, fun e he => Or.inl he, fun hn => hn, fun _ x hx => by simp at hx⟩
  | succ n ih =>
    unfold triLoop at h
    split at h
    · rename_i r1 r2 h1 h2
      dsimp only at h
      split at h
      · rename_i rest hrest
        simp only [Option.some.injEq, Prod.mk.injEq] at h
        obtain ⟨rfl, rfl⟩ := h
        obtain ⟨hp, hsub, hnd, hlt⟩ := ih (k + 1) _ rest.1 rest.2 hrest
        have p1 := mapindex_extends t r1
        have p2 := mapindex_extends (mapindex t r1).2 r2
        have hF1 : r1 ∈ F := List.getElem?_mem h1
        have hF2 : r2 ∈ F := List.getElem?_mem h2
        refine ⟨(p1.trans p2).trans hp, ?_, ?_, ?_⟩
        · intro e he
          rcases hsub e he with he | he
          · rcases mapindex_sub _ _ _ he with he | rfl
            · rcases mapindex_sub _ _ _ he with he | rfl
              · exact Or.inl he
              · exact Or.inr hF1
            · exact Or.inr hF2
          · exact Or.inr he
        · intro hn
          exact hnd (mapindex_nodup _ _ (mapindex_nodup _ _ hn))
        · intro hv x hx
          have l1 : (mapindex t r1).2.length ≤ (mapindex (mapindex t r1).2 r2).2.length :=
            p2.length_le
          have l2 : (mapindex (mapindex t r1).2 r2).2.length ≤ rest.2.length := hp.length_le
          have l0 : t.length ≤ (mapindex t r1).2.length := p1.length_le
          rcases List.mem_cons.1 hx with rfl | hx
          · have q1 := mapindex_lt t r1
            have q2 := mapindex_lt (mapindex t r1).2 r2
            refine ⟨?_, ?_, ?_⟩ <;> dsimp only <;> omega
          · exact hlt (by omega) x hx
      · cases h
    · cases h

theorem faceTris_sound {α : Type} (g : Globals α) (i : Nat) (t : List objfaceidxstr)
    (tris : List (Nat × Nat × Nat)) (m : List objfaceidxstr)
    (h : faceTris g i t = some (tris, m)) :
    t <+: m ∧ (∀ e ∈ m, e ∈ t ∨ e ∈ g.objfaceidx) ∧ (t.Nodup → m.Nodup) ∧
      ∀ x ∈ tris, x.1 < m.length ∧ x.2.1 < m.length ∧ x.2.2 < m.length := by
  unfold faceTris at h
  split at h
  · rename_i pos facelen _ _
    split at h
    · rename_i r0 h0
      dsimp only at h
      obtain ⟨hp, hsub, hnd, hlt⟩ := triLoop_sound _ _ _ _ _ _ _ h
      refine ⟨(mapindex_extends t r0).trans hp, ?_, ?_, hlt (mapindex_lt t r0)⟩
      · intro e he
        rcases hsub e he with he | he
        · rcases mapindex_sub _ _ _ he with he | rfl
          · exact Or.inl he
          · exact Or.inr (List.getElem?_mem h0)
        · exact Or.inr he
      · intro hn
        exact hnd (mapindex_nodup _ _ hn)
    · cases h
  · cases h

theorem indexLoop_sound {α : Type} (g : Globals α) (n i : Nat) (t : List objfaceidxstr)
    (tris : List (Nat × Nat × Nat)) (m : List objfaceidxstr)
    (h : indexLoop g n i t = some (tris, m)) :
    t <+: m ∧ (∀ e ∈ m, e ∈ t ∨ e ∈ g.objfaceidx) ∧ (t.Nodup → m.Nodup) ∧
      ∀ x ∈ tris, x.1 < m.length ∧ x.2.1 < m.length ∧ x.2.2 < m.length := by
  induction n generalizing i t tris m with
  | zero =>
    simp only [indexLoop, Option.some.injEq, Prod.mk.injEq] at h
    obtain ⟨rfl, rfl⟩ := h
    exact ⟨List.prefix_refl _, fun e he => Or.inl he, fun hn => hn, fun x hx => by simp at hx⟩
  | succ n ih =>
    unfold indexLoop at h
    split at h
    · rename_i ft hft
      split at h
      · rename_i rest hrest
        simp only [Option.some.injEq, Prod.mk.injEq] at h
        obtain ⟨rfl, rfl⟩ := h
        obtain ⟨a1, a2, a3, a4⟩ := faceTris_sound g i t ft.1 ft.2 hft
        obtain ⟨b1, b2, b3, b4⟩ := ih (i + 1) ft.2 rest.1 rest.2 hrest
        refine ⟨a1.trans b1, ?_, fun hn => b3 (a3 hn), ?_⟩
        · intro e he
          rcases b2 e he with he | he
          · exact a2 e he
          · exact Or.inr he
        · intro x hx
          rcases List.mem_append.1 hx with hx | hx
          · obtain ⟨c1, c2, c3⟩ := a4 x hx
            have l := b1.length_le
            exact ⟨by omega, by omega, by omega⟩
          · exact b4 x hx
      · cases h
    · cases h

theorem faceTris_total {α : Type} (g : Globals α) (hg : FacesOK g) (i : Nat)
    (hi : i < g.objfacepos.length) (t : List objfaceidxstr) :
    ∃ r, faceTris g i t = some r := by
  obtain ⟨_, f2, f3⟩ := hg
  have hi2 : i < g.objfacelen.length := f2 ▸ hi
  obtain ⟨h1, h2⟩ := f3 i g.objfacepos[i] g.objfacelen[i] (List.getElem?_eq_getElem hi)
    (List.getElem?_eq_getElem hi2)
  have hp : g.objfacepos[i] < g.objfaceidx.length := by omega
  by_cases h3 : 3 ≤ g.objfacelen[i]
  · obtain ⟨tris, m, he, _⟩ := faceTris_spec g i g.objfacepos[i] g.objfacelen[i] t
      g.objfaceidx[g.objfacepos[i]] (List.getElem?_eq_getElem hi)
      (List.getElem?_eq_getElem hi2) (List.getElem?_eq_getElem hp) (by omega)
    exact ⟨_, he⟩
  · have h0 : g.objfacelen[i] - 2 = 0 := by omega
    refine ⟨([], (mapindex t g.objfaceidx[g.objfacepos[i]]).2), ?_⟩
    simp only [faceTris, List.getElem?_eq_getElem hi, List.getElem?_eq_getElem hi2,
      List.getElem?_eq_getElem hp, h0, triLoop]

theorem indexLoop_total {α : Type} (g : Globals α) (hg : FacesOK g) (n i : Nat)
    (hi : i + n ≤ g.objfacepos.length) (t : List objfaceidxstr) :
    ∃ r, indexLoop g n i t = some r := by
  induction n generalizing i t with
  | zero => exact ⟨_, rfl⟩
  | succ n ih =>
    obtain ⟨ft, hft⟩ := faceTris_total g hg i (by omega) t
    obtain ⟨rest, hrest⟩ := ih (i + 1) (by omega) ft.2
    exact ⟨(ft.1 ++ rest.1, rest.2), by simp only [indexLoop, hft, hrest]⟩

/-! ## The attribute blocks -/

theorem mapAll_spec {β γ : Type} (f : β → Option γ) (l : List β) (r : List γ)
    (h : mapAll f l = some r) :
    r.length = l.length ∧
      ∀ (k : Nat) (e : β), l[k]? = some e → ∃ c, f e = some c ∧ r[k]? = some c := by
  induction l generalizing r with
  | nil =>
    simp only [mapAll, Option.some.injEq] at h
    subst h
    exact ⟨rfl, fun k e he => by simp at he⟩
  | cons b bs ih =>
    unfold mapAll at h
    split at h
    · rename_i c cs hc hcs
      simp only [Option.some.injEq] at h
      subst h
      obtain ⟨h1, h2⟩ := ih cs hcs
      refine ⟨by simp [h1], ?_⟩
      intro k e he
      cases k with
      | zero =>
        simp only [List.getElem?_cons_zero, Option.some.injEq] at he
        subst he
        exact ⟨c, hc, by simp⟩
      | succ k =>
        simp only [List.getElem?_cons_succ] at he
        obtain ⟨c1, hc1, hr⟩ := h2 k e he
        exact ⟨c1, hc1, by simpa using hr⟩
    · cases h

theorem mapAll_total {β γ : Type} (f : β → Option γ) (l : List β)
    (h : ∀ e ∈ l, ∃ c, f e = some c) : ∃ r, mapAll f l = some r := by
  induction l with
  | nil => exact ⟨[], rfl⟩
  | cons b bs ih =>
    obtain ⟨c, hc⟩ := h b (List.mem_cons_self b bs)
    obtain ⟨cs, hcs⟩ := ih (fun e he => h e (List.mem_cons_of_mem b he))
    exact ⟨c :: cs, by simp only [mapAll, hc, hcs]⟩

theorem readXyz_total {α : Type} (buf : List α) (idx : Int) (h1 : 1 ≤ idx)
    (h2 : 3 * idx ≤ buf.length) : ∃ p, readXyz buf idx = some p := by
  have hk : 0 ≤ 3 * (idx - 1) := by omega
  have hk2 : (3 * (idx - 1)).toNat + 2 < buf.length := by omega
  have a0 : (3 * (idx - 1)).toNat < buf.length := by omega
  have a1 : (3 * (idx - 1)).toNat + 1 < buf.length := by omega
  simp only [readXyz, hk, if_true, List.getElem?_eq_getElem a0,
    List.getElem?_eq_getElem a1, List.getElem?_eq_getElem hk2]
  exact ⟨_, rfl⟩

theorem genobj2acorn_some {α : Type} [LinearOrderedField α] (cos sin : α → α)
    (g : Globals α) (doc : Shape α) (h : genobj2acorn cos sin g = some doc) :
    ∃ tris m, indexLoop g g.objnfaces 0 [] = some (tris, m) ∧ doc.indices = tris ∧
      doc.nvertices = nmaps m ∧
      mapAll (fun e => (readXyz g.objvertpos e.vp).map (convertPosition cos sin g)) m =
        some doc.positions ∧
      (∀ ns, doc.normals = some ns → ns.length = nmaps m) ∧
      (∀ us, doc.uvs = some us → us.length = nmaps m) ∧
      (g.objnvertnorm = 0 → doc.normals = none) ∧ (g.objnverttex = 0 → doc.uvs = none) := by
  unfold genobj2acorn at h
  dsimp only at h
  split at h
  · cases h
  · rename_i tris m hidx
    split at h
    · cases h
    · rename_i positions hpos
      split at h
      · rename_i ns us hns hus
        simp only [Option.some.injEq] at h
        subst h
        refine ⟨tris, m, hidx, rfl, rfl, hpos, ?_, ?_, ?_, ?_⟩
        · intro ns1 hn1
          dsimp only at hn1
          subst hn1
          split at hns
          · cases hm : mapAll (fun e => (readXyz g.objvertnorm e.vn).map
                (convertNormal cos sin g)) m with
            | none => simp [hm] at hns
            | some l =>
              rw [hm] at hns
              simp only [Option.map_some', Option.some.injEq] at hns
              subst hns
              exact (mapAll_spec _ _ _ hm).1
          · simp at hns
        · intro us1 hu1
          dsimp only at hu1
          subst hu1
          split at hus
          · cases hm : mapAll (fun e => (readXyz g.objverttex e.vt).map
                (fun f => if g.uvdim = 3 then [f.x, f.y, f.z] else [f.x, f.y])) m with
            | none => simp [hm] at hus
            | some l =>
              rw [hm] at hus
              simp only [Option.map_some', Option.some.injEq] at hus
              subst hus
              exact (mapAll_spec _ _ _ hm).1
          · simp at hus
        · intro h0
          dsimp only
          simp only [h0, gt_iff_lt, lt_self_iff_false, if_false, Option.some.injEq] at hns
          exact hns.symm
        · intro h0
          dsimp only
          simp only [h0, gt_iff_lt, lt_self_iff_false, if_false, Option.some.injEq] at hus
          exact hus.symm
      · cases h

theorem genobj2acorn_total {α : Type} [LinearOrderedField α] (cos sin : α → α)
    (g : Globals α) (tris : List (Nat × Nat × Nat)) (m : List objfaceidxstr)
    (positions : List (Xyz α)) (hidx : indexLoop g g.objnfaces 0 [] = some (tris, m))
    (hpos : mapAll (fun e => (readXyz g.objvertpos e.vp).map (convertPosition cos sin g)) m =
      some positions)
    (hn : g.objnvertnorm = 0) (ht : g.objnverttex = 0) :
    ∃ doc, genobj2acorn cos sin g = some doc := by
  unfold genobj2acorn
  simp only [hidx, hpos, hn, ht, gt_iff_lt, lt_self_iff_false, if_false]
  exact ⟨_, rfl⟩

/-! ## The document of a parsed input -/

theorem convertPosition_same {α : Type} [LinearOrderedField α] (cos sin : α → α)
    (hcos : cos 0 = 1) (hsin : sin 0 = 0) (g : Globals α) (hr : g.yrotation = 0)
    (hx : g.xdelta = 0) (hy : g.ydelta = 0) (hz : g.zdelta = 0) (hs : g.scale = 1)
    (p : Xyz α) : convertPosition cos sin g p = p := by
  cases p
  simp [convertPosition, hr, hx, hy, hz, hs, hcos, hsin]

/-- C14, the counterexample: the buffer `f 1 2 3` is parsed with success by both passes,
has no `vn` and no `vt` line, and gives three canonical vertices with the position
indices 1, 2, 3; but it has no position, so that no source position has these indices:
the position loop reads outside the empty buffer `objvertpos` and no document is
defined. -/
theorem face_without_positions :
    ((parseobj atofDec 10 true (Globals.init faceWithoutPositions)).bind
      (fun r => parseobj atofDec 10 false r.2)).map
        (fun r => (r.1, r.2.objnvertnorm, r.2.objnverttex, r.2.objvertpos)) =
      some (true, 0, 0, []) ∧
    ((parseobj atofDec 10 true (Globals.init faceWithoutPositions)).bind
      (fun r => parseobj atofDec 10 false r.2)).bind
        (fun r => indexLoop r.2 r.2.objnfaces 0 []) =
      some ([(0, 1, 2)], [⟨0, 1, 0, 0⟩, ⟨0, 2, 0, 0⟩, ⟨0, 3, 0, 0⟩]) ∧
    readXyz ([] : List ℚ) 1 = none ∧
    (convert atofDec (fun _ => 1) (fun _ => 0) 10
      (Globals.init faceWithoutPositions)).isNone = true := by
  refine ⟨?_, ?_, ?_, ?_⟩ <;> decide

/-- C14, amended: for a successfully parsed input in which the counting pass has found no
`vn` and no `vt` line and every face reference has a position index between 1 and the
number of positions, converted with rotation 0, no origin fraction and no target height,
`genobj2acorn` writes a document with the index block of the index loop, no normal block,
no uv block, and one position per canonical vertex, the `k`-th one being the source
position whose 1-based index is the position index of the `k`-th canonical vertex. -/
theorem positions_verbatim {α : Type} [LinearOrderedField α] (atof : List Char → α)
    (cos sin : α → α) (hcos : cos 0 = 1) (hsin : sin 0 = 0) (fuel : Nat) (st g : Globals α)
    (h : Parsed atof fuel st g) (hr : st.yrotation = 0) (hx : st.xorigin < 0)
    (hy : st.yorigin < 0) (hz : st.zorigin < 0) (hh : st.height ≤ 0) (hdx : st.xdelta = 0)
    (hdy : st.ydelta = 0) (hdz : st.zdelta = 0) (hs : st.scale = 1)
    (hn : g.objnvertnorm = 0) (ht : g.objnverttex = 0)
    (hvp : ∀ e ∈ g.objfaceidx, 1 ≤ e.vp ∧ e.vp ≤ g.objnvertpos) :
    ∃ doc tris m, genobj2acorn cos sin g = some doc ∧
      indexLoop g g.objnfaces 0 [] = some (tris, m) ∧ doc.indices = tris ∧
      doc.normals = none ∧ doc.uvs = none ∧ doc.positions.length = nmaps m ∧
      ∀ (k : Nat) (e : objfaceidxstr), m[k]? = some e →
        ∃ p, readXyz g.objvertpos e.vp = some p ∧ doc.positions[k]? = some p := by
  obtain ⟨hok, hfp, _, hvl⟩ := parsed_layout atof fuel st g h
  obtain ⟨c1, _, _, _, _, c6, c7, c8, c9⟩ := parsed_config atof fuel st g h hh hx hy hz
  obtain ⟨⟨tris, m⟩, hidx⟩ := indexLoop_total g hok g.objnfaces 0 (by omega) []
  obtain ⟨_, hsub, _, _⟩ := indexLoop_sound g _ _ _ tris m hidx
  have hmem : ∀ e ∈ m, e ∈ g.objfaceidx := fun e he =>
    (hsub e he).elim (fun hnil => by simp at hnil) id
  have hread : ∀ e ∈ m, ∃ c,
      (readXyz g.objvertpos e.vp).map (convertPosition cos sin g) = some c := by
    intro e he
    obtain ⟨v1, v2⟩ := hvp e (hmem e he)
    obtain ⟨p, hp⟩ := readXyz_total g.objvertpos e.vp v1 (by omega)
    exact ⟨convertPosition cos sin g p, by rw [hp]; rfl⟩
  obtain ⟨ps, hps⟩ := mapAll_total _ m hread
  obtain ⟨doc, hdoc⟩ := genobj2acorn_total cos sin g tris m ps hidx hps hn ht
  obtain ⟨tris1, m1, hidx1, d1, _, d3, _, _, d6, d7⟩ := genobj2acorn_some cos sin g doc hdoc
  rw [hidx] at hidx1
  simp only [Option.some.injEq, Prod.mk.injEq] at hidx1
  obtain ⟨rfl, rfl⟩ := hidx1
  obtain ⟨e1, e2⟩ := mapAll_spec _ _ _ d3
  refine ⟨doc, tris, m, hdoc, hidx, d1, d6 hn, d7 ht, e1, ?_⟩
  intro k e hk
  obtain ⟨c, hc, hck⟩ := e2 k e hk
  cases hp : readXyz g.objvertpos e.vp with
  | none => simp [hp] at hc
  | some p =>
    rw [hp] at hc
    simp only [Option.map_some', Option.some.injEq] at hc
    rw [convertPosition_same cos sin hcos hsin g (c1.trans hr) (c6.trans hdx) (c7.trans hdy)
      (c8.trans hdz) (c9.trans hs)] at hc
    subst hc
    exact ⟨p, rfl, hck⟩

/-- Witness of C14 (amended): the triangle of the specification, `v 0 0 0`, `v 1 0 0`,
`v 0 1 0`, `f 1 2 3`, with cosine 1 and sine 0. -/
theorem positions_verbatim_witness :
    ∃ doc tris m, genobj2acorn (fun _ => (1 : ℚ)) (fun _ => (0 : ℚ)) filledTriangle = some doc ∧
      indexLoop filledTriangle filledTriangle.objnfaces 0 [] = some (tris, m) ∧
      doc.indices = tris ∧ doc.normals = none ∧ doc.uvs = none ∧
      doc.positions.length = nmaps m ∧
      ∀ (k : Nat) (e : objfaceidxstr), m[k]? = some e →
        ∃ p, readXyz filledTriangle.objvertpos e.vp = some p ∧ doc.positions[k]? = some p :=
  positions_verbatim atofDec (fun _ => 1) (fun _ => 0) rfl rfl 10 (Globals.init oneTriangle)
    filledTriangle ⟨rfl, rfl, rfl, rfl, rfl, rfl, countedTriangle, by rfl, by rfl⟩
    rfl (by decide) (by decide) (by decide) (by decide) rfl rfl rfl rfl rfl rfl (by decide)

/-- C19: for a successfully parsed input the index loop returns its triples, every
component of every triple is below the final `nmaps`, and in any document that
`genobj2acorn` writes the index block holds these triples and the position block, the
normal block and the uv block, when present, have exactly `nmaps` entries. -/
theorem indices_below_nmaps {α : Type} [LinearOrderedField α] (atof : List Char → α)
    (fuel : Nat) (st g : Globals α) (h : Parsed atof fuel st g) :
    ∃ tris m, indexLoop g g.objnfaces 0 [] = some (tris, m) ∧
      (∀ x ∈ tris, x.1 < nmaps m ∧ x.2.1 < nmaps m ∧ x.2.2 < nmaps m) ∧
      ∀ (cos sin : α → α) (doc : Shape α), genobj2acorn cos sin g = some doc →
        doc.indices = tris ∧ doc.nvertices = nmaps m ∧ doc.positions.length = nmaps m ∧
        (∀ ns, doc.normals = some ns → ns.length = nmaps m) ∧
        (∀ us, doc.uvs = some us → us.length = nmaps m) := by
  obtain ⟨hok, hfp, _, _⟩ := parsed_layout atof fuel st g h
  obtain ⟨⟨tris, m⟩, hidx⟩ := indexLoop_total g hok g.objnfaces 0 (by omega) []
  obtain ⟨_, _, _, hlt⟩ := indexLoop_sound g _ _ _ tris m hidx
  refine ⟨tris, m, hidx, hlt, ?_⟩
  intro cos sin doc hdoc
  obtain ⟨tris1, m1, hidx1, d1, d2, d3, d4, d5, _, _⟩ := genobj2acorn_some cos sin g doc hdoc
  rw [hidx] at hidx1
  simp only [Option.some.injEq, Prod.mk.injEq] at hidx1
  obtain ⟨rfl, rfl⟩ := hidx1
  exact ⟨d1, d2, (mapAll_spec _ _ _ d3).1, d4, d5⟩

/-- Witness of C19: the triangle `f 1 2 3` over three positions. -/
theorem indices_below_nmaps_witness :
    ∃ tris m, indexLoop filledTriangle filledTriangle.objnfaces 0 [] = some (tris, m) ∧
      (∀ x ∈ tris, x.1 < nmaps m ∧ x.2.1 < nmaps m ∧ x.2.2 < nmaps m) ∧
      ∀ (cos sin : ℚ → ℚ) (doc : Shape ℚ), genobj2acorn cos sin filledTriangle = some doc →
        doc.indices = tris ∧ doc.nvertices = nmaps m ∧ doc.positions.length = nmaps m ∧
        (∀ ns, doc.normals = some ns → ns.length = nmaps m) ∧
        (∀ us, doc.uvs = some us → us.length = nmaps m) :=
  indices_below_nmaps atofDec 10 (Globals.init oneTriangle) filledTriangle
    ⟨rfl, rfl, rfl, rfl, rfl, rfl, countedTriangle, by rfl, by rfl⟩

/-- C20: for a successfully parsed input the fill pass has stored `objnfaceidxs`
references; every face has a start and a length in the face buffers, its first
reference, and the references `pos+j+1`, `pos+j+2` that the triangle loop reads for
`j < facelen-2`, lie below `objnfaceidxs`; the index loop returns (no read outside the
buffers), every entry of the table is a stored reference, and the final `nmaps` is at
most `objnfaceidxs`, the size of the table. -/
theorem mapindex_within_table {α : Type} [LinearOrderedField α] (atof : List Char → α)
    (fuel : Nat) (st g : Globals α) (h : Parsed atof fuel st g) :
    g.objfaceidx.length = g.objnfaceidxs ∧
    (∀ i, i < g.objnfaces → ∃ pos len, g.objfacepos[i]? = some pos ∧
      g.objfacelen[i]? = some len ∧ pos < g.objnfaceidxs ∧
      ∀ j, j < len - 2 → pos + j + 2 < g.objnfaceidxs) ∧
    ∃ tris m, indexLoop g g.objnfaces 0 [] = some (tris, m) ∧
      (∀ e ∈ m, e ∈ g.objfaceidx) ∧ nmaps m ≤ g.objnfaceidxs := by
  obtain ⟨hok, hfp, hfi, _⟩ := parsed_layout atof fuel st g h
  obtain ⟨⟨tris, m⟩, hidx⟩ := indexLoop_total g hok g.objnfaces 0 (by omega) []
  obtain ⟨_, hsub, hnd, _⟩ := indexLoop_sound g _ _ _ tris m hidx
  have hmem : ∀ e ∈ m, e ∈ g.objfaceidx := fun e he =>
    (hsub e he).elim (fun hnil => by simp at hnil) id
  refine ⟨hfi, ?_, tris, m, hidx, hmem, ?_⟩
  · intro i hi
    obtain ⟨_, f2, f3⟩ := hok
    have hi1 : i < g.objfacepos.length := by omega
    have hi2 : i < g.objfacelen.length := by omega
    obtain ⟨h1, h2⟩ := f3 i g.objfacepos[i] g.objfacelen[i] (List.getElem?_eq_getElem hi1)
      (List.getElem?_eq_getElem hi2)
    refine ⟨_, _, List.getElem?_eq_getElem hi1, List.getElem?_eq_getElem hi2, by omega, ?_⟩
    intro j hj
    omega
  · have hsp : List.Subperm m g.objfaceidx := (hnd List.nodup_nil).subperm hmem
    have hle := hsp.length_le
    rw [hfi] at hle
    exact hle

/-- Witness of C20: a face of two references over two positions. -/
theorem mapindex_within_table_witness :
    filledShortFace.objfaceidx.length = filledShortFace.objnfaceidxs ∧
    (∀ i, i < filledShortFace.objnfaces → ∃ pos len,
      filledShortFace.objfacepos[i]? = some pos ∧
      filledShortFace.objfacelen[i]? = some len ∧ pos < filledShortFace.objnfaceidxs ∧
      ∀ j, j < len - 2 → pos + j + 2 < filledShortFace.objnfaceidxs) ∧
    ∃ tris m, indexLoop filledShortFace filledShortFace.objnfaces 0 [] = some (tris, m) ∧
      (∀ e ∈ m, e ∈ filledShortFace.objfaceidx) ∧ nmaps m ≤ filledShortFace.objnfaceidxs :=
  mapindex_within_table atofDec 10 (Globals.init shortFace) filledShortFace
    ⟨rfl, rfl, rfl, rfl, rfl, rfl, countedShortFace, by rfl, by rfl⟩

/-! ## The cursor of `getfloat` -/

theorem skipFloat_run (q : List Char) :
    ∃ run, q = run ++ skipFloat q ∧ (∀ c ∈ run, c ≠ NUL ∧ isFloatC c = true) ∧
      (cur (skipFloat q) = NUL ∨ isFloatC (cur (skipFloat q)) = false) := by
  induction q with
  | nil => exact ⟨[], rfl, fun c hc => by simp at hc, Or.inl rfl⟩
  | cons c cs ih =>
    by_cases h : (c != NUL && isFloatC c) = true
    · obtain ⟨run, h1, h2, h3⟩ := ih
      refine ⟨c :: run, ?_, ?_, ?_⟩
      · simp only [skipFloat, h, if_true, List.cons_append]
        rw [← h1]
      · intro d hd
        rcases List.mem_cons.1 hd with rfl | hd
        · simpa using h
        · exact h2 d hd
      · simp only [skipFloat, h, if_true]
        exact h3
    · refine ⟨[], ?_, fun d hd => by simp at hd, ?_⟩
      · simp only [skipFloat, h, Bool.false_eq_true, if_false, List.nil_append]
      · simp only [skipFloat, h, Bool.false_eq_true, if_false]
        by_cases hc : c = NUL
        · exact Or.inl (by simp [cur, hc])
        · right
          simp only [Bool.and_eq_true, bne_iff_ne, ne_eq, not_and, Bool.not_eq_true] at h
          exact h hc

theorem skipFloat_append (lit rest : List Char)
    (hl : ∀ c ∈ lit, c ≠ NUL ∧ isFloatC c = true)
    (hr : cur rest = NUL ∨ isFloatC (cur rest) = false) :
    skipFloat (lit ++ rest) = rest := by
  induction lit with
  | nil =>
    cases rest with
    | nil => rfl
    | cons c cs =>
      have h : ¬ (c != NUL && isFloatC c) = true := by
        simp only [Bool.and_eq_true, bne_iff_ne, ne_eq, not_and, Bool.not_eq_true]
        intro hc
        rcases hr with hr | hr
        · exact absurd hr hc
        · exact hr
      simp only [List.nil_append, skipFloat, h, Bool.false_eq_true, if_false]
  | cons c cs ih =>
    have h : (c != NUL && isFloatC c) = true := by
      simpa using hl c (List.mem_cons_self c cs)
    simp only [List.cons_append, skipFloat, h, if_true]
    exact ih (fun d hd => hl d (List.mem_cons_of_mem c hd))

theorem readDigits_spec (q : List Char) (acc n : Nat) :
    ∃ ds, q = ds ++ (readDigits q acc n).2.2 ∧ (readDigits q acc n).2.1 = n + ds.length ∧
      ∀ c ∈ ds, isDigitC c = true := by
  induction q generalizing acc n with
  | nil => exact ⟨[], rfl, rfl, fun c hc => by simp at hc⟩
  | cons c cs ih =>
    by_cases h : isDigitC c = true
    · obtain ⟨ds, h1, h2, h3⟩ := ih (10 * acc + (c.toNat - 48)) (n + 1)
      refine ⟨c :: ds, ?_, ?_, ?_⟩
      · simp only [readDigits, h, if_true, List.cons_append]
        rw [← h1]
      · simp only [readDigits, h, if_true, h2, List.length_cons]
        omega
      · intro d hd
        rcases List.mem_cons.1 hd with rfl | hd
        · exact h
        · exact h3 d hd
    · exact ⟨[], by simp only [readDigits, h, Bool.false_eq_true, if_false, List.nil_append],
        by simp only [readDigits, h, Bool.false_eq_true, if_false, List.length_nil,
          Nat.add_zero],
        fun d hd => by simp at hd⟩

theorem isDigitC_class (c : Char) (h : isDigitC c = true) :
    c ≠ NUL ∧ isFloatC c = true := by
  refine ⟨?_, by simp [isFloatC, h]⟩
  rintro rfl
  exact absurd h (by decide)

theorem take_digits (q : List Char) (k : Nat) :
    ∃ ds, q.take ((readDigits q 0 0).2.1 + k) = ds ++ (readDigits q 0 0).2.2.take k ∧
      ∀ c ∈ ds, isDigitC c = true := by
  obtain ⟨ds, h1, h2, h3⟩ := readDigits_spec q 0 0
  refine ⟨ds, ?_, h3⟩
  have hl : (readDigits q 0 0).2.1 = ds.length := by omega
  rw [hl]
  conv_lhs => rw [h1]
  rw [List.take_append]

theorem exponent_class (q : List Char) :
    ∀ c ∈ q.take (exponentLength q), c ≠ NUL ∧ (isFloatC c = true ∨ c = '+') := by
  cases q with
  | nil => intro c hc; simp at hc
  | cons c0 r =>
    by_cases he : (c0 == 'e' || c0 == 'E') = true
    · have hc0 : c0 ≠ NUL ∧ (isFloatC c0 = true ∨ c0 = '+') := by
        simp only [Bool.or_eq_true, beq_iff_eq] at he
        rcases he with rfl | rfl <;> exact ⟨by decide, Or.inl (by decide)⟩
      have hdig : ∀ (r2 : List Char), ∀ c ∈ r2.take ((readDigits r2 0 0).2.1 + 0),
          c ≠ NUL ∧ (isFloatC c = true ∨ c = '+') := by
        intro r2 c hc
        obtain ⟨ds, h1, h2⟩ := take_digits r2 0
        rw [h1] at hc
        simp only [List.take_zero, List.append_nil] at hc
        exact ⟨(isDigitC_class c (h2 c hc)).1, Or.inl (isDigitC_class c (h2 c hc)).2⟩
      unfold exponentLength
      simp only [he, if_true]
      split
      · rename_i r2
        split
        · intro c hc; simp at hc
        · intro c hc
          rw [show 2 + (readDigits r2 0 0).2.1 = ((readDigits r2 0 0).2.1 + 0) + 1 + 1 by omega]
            at hc
          simp only [List.take_succ_cons, List.mem_cons] at hc
          rcases hc with rfl | rfl | hc
          · exact hc0
          · exact ⟨by decide, Or.inl (by decide)⟩
          · exact hdig r2 c hc
      · rename_i r2
        split
        · intro c hc; simp at hc
        · intro c hc
          rw [show 2 + (readDigits r2 0 0).2.1 = ((readDigits r2 0 0).2.1 + 0) + 1 + 1 by omega]
            at hc
          simp only [List.take_succ_cons, List.mem_cons] at hc
          rcases hc with rfl | rfl | hc
          · exact hc0
          · exact ⟨by decide, Or.inr rfl⟩
          · exact hdig r2 c hc
      · split
        · intro c hc; simp at hc
        · intro c hc
          rw [show 1 + (readDigits r 0 0).2.1 = ((readDigits r 0 0).2.1 + 0) + 1 by omega]
            at hc
          simp only [List.take_succ_cons, List.mem_cons] at hc
          rcases hc with rfl | hc
          · exact hc0
          · exact hdig r c hc
    · unfold exponentLength
      simp only [he, Bool.false_eq_true, if_false]
      intro c hc
      simp at hc

theorem unsigned_class (q : List Char) :
    ∀ c ∈ q.take (unsignedLength q), c ≠ NUL ∧ (isFloatC c = true ∨ c = '+') := by
  have hd : ∀ (ds : List Char), (∀ c ∈ ds, isDigitC c = true) →
      ∀ c ∈ ds, c ≠ NUL ∧ (isFloatC c = true ∨ c = '+') := fun ds h c hc =>
    ⟨(isDigitC_class c (h c hc)).1, Or.inl (isDigitC_class c (h c hc)).2⟩
  unfold unsignedLength
  dsimp only
  split
  · rename_i r heq
    split
    · intro c hc; simp at hc
    · intro c hc
      obtain ⟨ds1, h1, h2⟩ := take_digits q
        (1 + (readDigits r 0 0).2.1 + exponentLength (readDigits r 0 0).2.2)
      obtain ⟨ds2, h3, h4⟩ := take_digits r (exponentLength (readDigits r 0 0).2.2)
      rw [show (readDigits q 0 0).2.1 + 1 + (readDigits r 0 0).2.1 +
          exponentLength (readDigits r 0 0).2.2 = (readDigits q 0 0).2.1 +
          (1 + (readDigits r 0 0).2.1 + exponentLength (readDigits r 0 0).2.2) by omega,
        h1, heq,
        show 1 + (readDigits r 0 0).2.1 + exponentLength (readDigits r 0 0).2.2 =
          ((readDigits r 0 0).2.1 + exponentLength (readDigits r 0 0).2.2) + 1 by omega,
        List.take_succ_cons, h3] at hc
      simp only [List.mem_append, List.mem_cons] at hc
      rcases hc with hc | rfl | hc | hc
      · exact hd ds1 h2 c hc
      · exact ⟨by decide, Or.inl (by decide)⟩
      · exact hd ds2 h4 c hc
      · exact exponent_class _ c hc
  · rename_i r _
    split
    · intro c hc; simp at hc
    · intro c hc
      obtain ⟨ds1, h1, h2⟩ := take_digits q (exponentLength (readDigits q 0 0).2.2)
      rw [h1] at hc
      rcases List.mem_append.1 hc with hc | hc
      · exact hd ds1 h2 c hc
      · exact exponent_class _ c hc

theorem literal_class (q : List Char) :
    ∀ c ∈ q.take (literalLength q), c ≠ NUL ∧ (isFloatC c = true ∨ c = '+') := by
  unfold literalLength
  split
  · rename_i cs
    split
    · intro c hc; simp at hc
    · intro c hc
      rw [show 1 + unsignedLength cs = unsignedLength cs + 1 by omega,
        List.take_succ_cons] at hc
      rcases List.mem_cons.1 hc with rfl | hc
      · exact ⟨by decide, Or.inl (by decide)⟩
      · exact unsigned_class cs c hc
  · rename_i cs
    split
    · intro c hc; simp at hc
    · intro c hc
      rw [show 1 + unsignedLength cs = unsignedLength cs + 1 by omega,
        List.take_succ_cons] at hc
      rcases List.mem_cons.1 hc with rfl | hc
      · exact ⟨by decide, Or.inr rfl⟩
      · exact unsigned_class cs c hc
  · exact unsigned_class q

theorem skipFloat_literal (q : List Char)
    (hplus : ∀ c ∈ q.take (literalLength q), c ≠ '+')
    (hnext : cur (q.drop (literalLength q)) = NUL ∨
      isFloatC (cur (q.drop (literalLength q))) = false) :
    skipFloat q = q.drop (literalLength q) := by
  have h := skipFloat_append (q.take (literalLength q)) (q.drop (literalLength q))
    (fun c hc => ⟨(literal_class q c hc).1,
      (literal_class q c hc).2.resolve_right (hplus c hc)⟩) hnext
  rwa [List.take_append_drop] at h

/-- The cursor of `getfloat`: it skips the leading spaces, returns the value of `atof` on
the text there, and moves the cursor past the maximal run of characters among the digits,
`.`, `-`, `e` and `E`: the text after the spaces is that run followed by the new cursor,
which stands at the end of the buffer or on a character outside the set.  So, when the
text after the spaces is made of characters of the set followed by a text that is empty
or starts outside the set, the cursor is left at the start of that text; in particular,
when the longest literal at the text after the spaces is written without `+` and is
followed by the end of the buffer or by a character outside the set, the cursor is left
on the first character after that literal. -/
theorem getfloat_cursor {α : Type} (atof : List Char → α) (p : List Char) :
    (getfloat atof p).1 = atof (skipSpaces p) ∧
    (∃ run, skipSpaces p = run ++ (getfloat atof p).2 ∧
      (∀ c ∈ run, c ≠ NUL ∧ isFloatC c = true) ∧
      (cur (getfloat atof p).2 = NUL ∨ isFloatC (cur (getfloat atof p).2) = false)) ∧
    (∀ lit rest, skipSpaces p = lit ++ rest → (∀ c ∈ lit, c ≠ NUL ∧ isFloatC c = true) →
      (cur rest = NUL ∨ isFloatC (cur rest) = false) → (getfloat atof p).2 = rest) ∧
    ((∀ c ∈ (skipSpaces p).take (literalLength (skipSpaces p)), c ≠ '+') →
      (cur ((skipSpaces p).drop (literalLength (skipSpaces p))) = NUL ∨
        isFloatC (cur ((skipSpaces p).drop (literalLength (skipSpaces p)))) = false) →
      (getfloat atof p).2 = (skipSpaces p).drop (literalLength (skipSpaces p))) := by
  refine ⟨rfl, skipFloat_run (skipSpaces p), ?_, skipFloat_literal (skipSpaces p)⟩
  intro lit rest hp hl hr
  show skipFloat (skipSpaces p) = rest
  rw [hp]
  exact skipFloat_append lit rest hl hr

/-- At the text ` -1.5e-3 x` the cursor is left on ` x`, after the literal. -/
theorem getfloat_cursor_at_literal :
    (getfloat atofDec " -1.5e-3 x".toList).2 = " x".toList ∧
    (getfloat atofDec " -1.5e-3 x".toList).2 =
      (skipSpaces " -1.5e-3 x".toList).drop
        (literalLength (skipSpaces " -1.5e-3 x".toList)) :=
  ⟨(getfloat_cursor atofDec " -1.5e-3 x".toList).2.2.1 "-1.5e-3".toList " x".toList
    (by decide) (by decide) (by decide),
   (getfloat_cursor atofDec " -1.5e-3 x".toList).2.2.2 (by decide) (by decide)⟩

/-- C11, the failing input: with an empty line (a lone LF) between the two position
lines of `v 1 2 3`, `v 4 5 6`, the counting pass counts one position instead of two and
the fill pass stores one position instead of two: the branch for LF calls `nextline`
after `match` has taken the LF, which skips the line that follows. -/
theorem blank_line_swallows_next :
    (parseobj atofDec 4 true (Globals.init twoPositions)).map
      (fun r => (r.1, r.2.objnvertpos)) = some (true, 2) ∧
    (parseobj atofDec 4 true (Globals.init twoPositionsBlank)).map
      (fun r => (r.1, r.2.objnvertpos)) = some (true, 1) ∧
    ((parseobj atofDec 4 true (Globals.init twoPositions)).bind
      (fun r => parseobj atofDec 4 false r.2)).map (fun r => (r.1, r.2.objvertpos)) =
        some (true, [1, 2, 3, 4, 5, 6]) ∧
    ((parseobj atofDec 4 true (Globals.init twoPositionsBlank)).bind
      (fun r => parseobj atofDec 4 false r.2)).map (fun r => (r.1, r.2.objvertpos)) =
        some (true, [1, 2, 3]) := by
  refine ⟨?_, ?_, ?_, ?_⟩ <;> decide

/-- C12, the failing input: on the face line `f 1/2/3 4 5//6` the fill pass records the
reference `4` with the texture and normal indices 2 and 3 of the reference before it,
and the reference `5//6` with the texture index 2, where the claim asks for 0. -/
theorem face_reference_inherits :
    ((parseobj atofDec 10 true (Globals.init mixedFace)).bind
      (fun r => parseobj atofDec 10 false r.2)).map (fun r => (r.1, r.2.objfaceidx)) =
        some (true, [⟨0, 1, 2, 3⟩, ⟨0, 4, 2, 3⟩, ⟨0, 5, 2, 6⟩]) := by
  decide

/-- C13, the failing input: on `f 1 2 3` followed by `s 5` the counting pass leaves the
smoothing group 5, and the fill pass run after it records the three references of the
face, which no `s` line precedes, with the group 5 instead of 0. -/
theorem count_pass_sets_seggroup :
    (parseobj atofDec 10 true (Globals.init faceBeforeGroup)).map
      (fun r => (r.1, r.2.seggroup)) = some (true, 5) ∧
    ((parseobj atofDec 10 true (Globals.init faceBeforeGroup)).bind
      (fun r => parseobj atofDec 10 false r.2)).map (fun r => (r.1, r.2.objfaceidx)) =
        some (true, [⟨5, 1, 0, 0⟩, ⟨5, 2, 0, 0⟩, ⟨5, 3, 0, 0⟩]) := by
  refine ⟨?_, ?_⟩ <;> decide

/-- C16, the failing input: at the text `-5` (as in the line `s -5`) `getint` returns -5
and leaves the cursor on the sign; at a line end followed by `12` it returns 12, read
by `atoi` from the next line, and leaves the cursor on the line end. -/
theorem getint_reads_sign :
    getint "-5\n".toList = (-5, "-5\n".toList) ∧
    getint "\n12".toList = (12, "\n12".toList) := by
  refine ⟨?_, ?_⟩ <;> decide

attribute [local semireducible] Rat.add Rat.mul Rat.sub Rat.inv

/-- C7, the counterexample: on the three positions of `flatTriangle`, all with `y = 0`,
and with the options `-origin:bottom -height:2` both passes succeed and leave the target
height 2 with `maxy = miny = 0`: the division of line 283 is by zero and the scale is not
a number (an infinity in the C code, whose `convertPosition` then multiplies 0 by it),
where the claim asks for `y' = 0` at every bounding box and every scale. -/
theorem flat_box_no_scale :
    ((parseobj atofDec 10 true flatBottom).bind
      (fun r => parseobj atofDec 10 false r.2)).map
        (fun r => (r.1, r.2.height, r.2.maxy, r.2.miny)) = some (true, 2, 0, 0) ∧
    ((parseobj atofDec 10 true flatBottom).bind
      (fun r => parseobj atofDec 10 false r.2)).map (fun r => deriveScale r.2) =
        some none := by
  refine ⟨?_, ?_⟩ <;> decide

/-- C17, the failing input: at the text `1e+2 3 4` the literal is `1e+2`, whose value 100
`getfloat` returns, and the cursor is left on `+2 3 4`, inside the literal, so that the
fill pass stores the position line `v 1e+2 3 4` as `(100, 2, 2)`; it stores the line
`v +5 1 2` as `(5, 5, 5)`, the cursor never leaving the sign.  At the text `1-2 3` the
literal is `1` and the cursor is left on ` 3`, after the three characters `1-2`; at the
text `e5`, which starts with no literal, `getfloat` returns 0 and moves the cursor past
both characters. -/
theorem getfloat_cursor_misses_literal :
    literalLength "1e+2 3 4".toList = 4 ∧
    getfloat atofDec "1e+2 3 4".toList = (100, "+2 3 4".toList) ∧
    ((parseobj atofDec 3 true (Globals.init plusExponent)).bind
      (fun r => parseobj atofDec 3 false r.2)).map (fun r => (r.1, r.2.objvertpos)) =
        some (true, [100, 2, 2]) ∧
    ((parseobj atofDec 3 true (Globals.init plusSign)).bind
      (fun r => parseobj atofDec 3 false r.2)).map (fun r => (r.1, r.2.objvertpos)) =
        some (true, [5, 5, 5]) ∧
    literalLength "1-2 3".toList = 1 ∧
    getfloat atofDec "1-2 3".toList = (1, " 3".toList) ∧
    literalLength "e5".toList = 0 ∧
    getfloat atofDec "e5".toList = (0, []) := by
  refine ⟨?_, ?_, ?_, ?_, ?_, ?_, ?_, ?_⟩ <;> decide

/-- C18, the failing input: for the triangle of `flatTriangle` under a quarter turn (cosine
0, sine 1) the boundary comment has the min corner `(2, 0, 0)` and the max corner
`(-2, 0, 4)`, so that the min corner is not below the max corner, and the position
`(2, 0, 4)` of the position block has its x outside `[2, -2]`. -/
theorem rotated_box_corners :
    (convert atofDec (fun _ => 0) (fun _ => 1) 10 quarterTurn).map
      (fun r => (r.1, r.2.newmin)) = some (0, ⟨2, 0, 0⟩) ∧
    (convert atofDec (fun _ => 0) (fun _ => 1) 10 quarterTurn).map
      (fun r => r.2.newmax) = some ⟨-2, 0, 4⟩ ∧
    (convert atofDec (fun _ => 0) (fun _ => 1) 10 quarterTurn).map
      (fun r => r.2.positions) = some [⟨-2, 0, 4⟩, ⟨2, 0, 0⟩, ⟨2, 0, 4⟩] := by
  refine ⟨?_, ?_, ?_⟩ <;> decide

end Pegconvert
